import Mathlib

/-!
Shallow embedding of the ormosbot repository (src/ormosbot), covering:

* `setstatsrendered.py`: the query extractor (`process_page`), the revision
  cache persistence (`load_revision_cache` / `dump_revision_cache`), the
  query registry (`register_page_queries`) and the incremental crawl loop of
  `main`.
* `update_module_data.py`: the stats fetch engine (`fetch_scryfall_stats`)
  and the Lua module renderer (`lua_from_mapping`).

The Python `json` module, `urllib.parse` helpers and the `requests` response
surface used by the code are modelled explicitly below, faithful to their
CPython semantics on the fragments the code exercises (ASCII-exact; byte-level
UTF-8 recombination of percent-escapes and of `\uXXXX` surrogate pairs is
modelled code-point-wise, which coincides with CPython on ASCII data).
-/

/-! ## Basic character/string helpers shared by the models -/

/-- The single-quote character, used when building strings programmatically. -/
def squoteChar : Char := Char.ofNat 39

/-- Decide whether `needle` occurs as a contiguous sublist of `hay`:
the model of Python's `needle in hay` on strings. -/
def containsSub (needle : List Char) : List Char → Bool
  | [] => needle.isEmpty
  | c :: rest => needle.isPrefixOf (c :: rest) || containsSub needle (rest)

/-- Split a character list at every occurrence of `sep`
(Python `str.split(sep)` for a one-character separator: empty pieces kept). -/
def splitOnChar (sep : Char) : List Char → List (List Char)
  | [] => [[]]
  | c :: rest =>
    let tail := splitOnChar sep rest
    if c = sep then [] :: tail
    else
      match tail with
      | [] => [[c]]
      | piece :: more => (c :: piece) :: more

/-- Split at the first occurrence of `sep`, if any
(Python `str.split(sep, 1)` when the separator occurs). -/
def splitFirst (sep : Char) : List Char → Option (List Char × List Char)
  | [] => none
  | c :: rest =>
    if c = sep then some ([], rest)
    else (splitFirst sep rest).map (fun p => (c :: p.1, p.2))

/-- The value of a hexadecimal digit character, upper or lower case. -/
def hexVal (c : Char) : Option Nat :=
  if '0' ≤ c ∧ c ≤ '9' then some (c.toNat - 48)
  else if 'a' ≤ c ∧ c ≤ 'f' then some (c.toNat - 87)
  else if 'A' ≤ c ∧ c ≤ 'F' then some (c.toNat - 55)
  else none

/-- Lower-case hexadecimal digit character for a value `< 16`. -/
def hexDigitChar (n : Nat) : Char :=
  if n < 10 then Char.ofNat (48 + n) else Char.ofNat (87 + n)

/-- Base-10 digits of `n`, least significant first, by fuelled structural
recursion (so that concrete values reduce inside the kernel); agrees with
`Nat.digits 10` whenever `n ≤ fuel`. -/
def natDigitsLE : Nat → Nat → List Nat
  | 0, _ => []
  | f + 1, n => if n = 0 then [] else n % 10 :: natDigitsLE f (n / 10)

/-- Decimal digit characters of `n`, most significant first
(the model of Python's `str(n)` for a natural number). -/
def natChars (n : Nat) : List Char :=
  if n = 0 then ['0']
  else ((natDigitsLE n n).map (fun d => Char.ofNat (48 + d))).reverse

/-- Decimal representation of an integer, Python `str(i)`. -/
def intChars : Int → List Char
  | .ofNat n => natChars n
  | .negSucc m => '-' :: natChars (m + 1)

/-- Append `v` to the list stored under `k`, creating the key at the end on
first use: the model of Python's `d.setdefault(k, []).append(v)` on an
insertion-ordered dict. -/
def assocAppend {α : Type} (k : String) (v : α) :
    List (String × List α) → List (String × List α)
  | [] => [(k, [v])]
  | (k', vs) :: rest =>
    if k' = k then (k', vs ++ [v]) :: rest
    else (k', vs) :: assocAppend k v rest

/-- Set key `k` to `v`, overwriting in place or appending at the end:
the model of Python's `d[k] = v` on an insertion-ordered dict. -/
def assocSet {α : Type} (k : String) (v : α) :
    List (String × α) → List (String × α)
  | [] => [(k, v)]
  | (k', v') :: rest =>
    if k' = k then (k', v) :: rest
    else (k', v') :: assocSet k v rest

/-! ## JSON values

Model of the Python `json` data domain as the code uses it.  Integers are
exact (`Int`); a number token carrying a fraction, an exponent, or one of the
non-standard constants `NaN`/`Infinity`/`-Infinity` is kept verbatim as
`numRaw` (the code never writes such values into the cache, but `json.load`
accepts them, so the parser must too). -/

inductive Json where
  | null
  | bool (b : Bool)
  | num (n : Int)
  | numRaw (tok : String)
  | str (s : String)
  | arr (items : List Json)
  | obj (fields : List (String × Json))

/-- Is this value a JSON object? -/
def Json.isObj : Json → Bool
  | .obj _ => true
  | _ => false

mutual

/-- Node count of a JSON value, used as a parser fuel bound. -/
def Json.nodes : Json → Nat
  | .null | .bool _ | .num _ | .numRaw _ | .str _ => 1
  | .arr items => 1 + Json.nodesList items
  | .obj fields => 1 + Json.nodesFields fields

/-- Node count of a list of JSON values. -/
def Json.nodesList : List Json → Nat
  | [] => 1
  | j :: rest => 1 + Json.nodes j + Json.nodesList rest

/-- Node count of a JSON object field list. -/
def Json.nodesFields : List (String × Json) → Nat
  | [] => 1
  | (_, j) :: rest => 1 + Json.nodes j + Json.nodesFields rest

end

mutual

/-- Well-formedness of a JSON value as an image of a Python value:
object keys are duplicate-free at every level and every number is an exact
integer (the shapes `json.dump` receives from this program). -/
def Json.WF : Json → Prop
  | .null | .bool _ | .num _ | .str _ => True
  | .numRaw _ => False
  | .arr items => Json.WFList items
  | .obj fields => (fields.map Prod.fst).Nodup ∧ Json.WFFields fields

/-- Well-formedness of every element of a list. -/
def Json.WFList : List Json → Prop
  | [] => True
  | j :: rest => Json.WF j ∧ Json.WFList rest

/-- Well-formedness of every value of a field list. -/
def Json.WFFields : List (String × Json) → Prop
  | [] => True
  | (_, j) :: rest => Json.WF j ∧ Json.WFFields rest

end

/-! ## JSON serialization

Model of CPython's `json.dump(value, f, indent=2, ensure_ascii=False)`:
two-space indentation, `", "`-free item separators (`","` + newline +
indent), `": "` key separator, `"{}"`/`"[]"` for empty containers, and the
`ensure_ascii=False` escaping rule: only `"`, `\` and control characters
below U+0020 are escaped (the latter with `\b \f \n \r \t` shortcuts or
lower-case `\u00xx`). -/

/-- Four lower-case hex digits of `n < 0x10000`. -/
def hex4 (n : Nat) : List Char :=
  [hexDigitChar (n / 4096 % 16), hexDigitChar (n / 256 % 16),
   hexDigitChar (n / 16 % 16), hexDigitChar (n % 16)]

/-- The replacement `json.dump` makes for one character of a string. -/
def jsonEscapeChar (c : Char) : List Char :=
  if c = '"' then ['\\', '"']
  else if c = '\\' then ['\\', '\\']
  else if c = Char.ofNat 8 then ['\\', 'b']
  else if c = Char.ofNat 12 then ['\\', 'f']
  else if c = '\n' then ['\\', 'n']
  else if c = '\r' then ['\\', 'r']
  else if c = '\t' then ['\\', 't']
  else if c.toNat < 32 then '\\' :: 'u' :: hex4 c.toNat
  else [c]

/-- Escape every character of a string body. -/
def escapeChars (s : List Char) : List Char := (s.map jsonEscapeChar).flatten

/-- A JSON string literal: quote, escaped body, quote. -/
def quoteStr (s : String) : List Char := '"' :: (escapeChars s.data ++ ['"'])

/-- Newline followed by the two-space indentation of nesting level `lvl`. -/
def nlInd (lvl : Nat) : List Char := '\n' :: List.replicate (2 * lvl) ' '

mutual

/-- Characters `json.dump` emits for a value at nesting level `lvl`. -/
def printJsonAt (lvl : Nat) : Json → List Char
  | .null => "null".data
  | .bool true => "true".data
  | .bool false => "false".data
  | .num n => intChars n
  | .numRaw tok => tok.data
  | .str s => quoteStr s
  | .arr [] => "[]".data
  | .arr (x :: xs) =>
    '[' :: (nlInd (lvl + 1) ++ printJsonAt (lvl + 1) x ++
      printArrRest (lvl + 1) xs ++ nlInd lvl ++ [']'])
  | .obj [] => ['{', '}']
  | .obj ((k, v) :: fs) =>
    '{' :: (nlInd (lvl + 1) ++ quoteStr k ++ ':' :: ' ' ::
      printJsonAt (lvl + 1) v ++ printObjRest (lvl + 1) fs ++ nlInd lvl ++ ['}'])

/-- The remaining array items, each preceded by `",\n" ++ indent`. -/
def printArrRest (lvl : Nat) : List Json → List Char
  | [] => []
  | x :: xs => ',' :: (nlInd lvl ++ printJsonAt lvl x ++ printArrRest lvl xs)

/-- The remaining object fields, each preceded by `",\n" ++ indent`. -/
def printObjRest (lvl : Nat) : List (String × Json) → List Char
  | [] => []
  | (k, v) :: fs =>
    ',' :: (nlInd lvl ++ quoteStr k ++ ':' :: ' ' ::
      printJsonAt lvl v ++ printObjRest lvl fs)

end

/-- The full serialized document: `json.dumps(v, indent=2, ensure_ascii=False)`. -/
def jsonDumps (v : Json) : String := String.mk (printJsonAt 0 v)

/-! ## JSON parsing

Model of CPython's `json.loads`: whitespace-tolerant recursive descent with
the non-standard constants `NaN`, `Infinity` and `-Infinity` accepted, number
tokens with a fraction or exponent kept verbatim as `numRaw`, duplicate
object keys collapsed with dict update semantics, and any trailing non-space
character rejected ("Extra data").  Recursion is fuelled; `jsonLoads` supplies
`length + 1` fuel, which suffices because every recursive call first consumes
at least one character.  (`\uXXXX` escapes are decoded code-point-wise: the
byte-level surrogate-pair recombination CPython performs is outside this
model, which is exact on ASCII documents.) -/

/-- The whitespace characters `json` skips between tokens. -/
def isJsonWs (c : Char) : Bool := c = ' ' || c = '\t' || c = '\n' || c = '\r'

/-- Skip inter-token whitespace. -/
def skipWs (cs : List Char) : List Char := cs.dropWhile isJsonWs

/-- One-character string escapes accepted after a backslash. -/
def jsonUnescapeChar (c : Char) : Option Char :=
  if c = '"' then some '"'
  else if c = '\\' then some '\\'
  else if c = '/' then some '/'
  else if c = 'b' then some (Char.ofNat 8)
  else if c = 'f' then some (Char.ofNat 12)
  else if c = 'n' then some '\n'
  else if c = 'r' then some '\r'
  else if c = 't' then some '\t'
  else none

/-- Parse the body of a string literal after the opening quote, returning the
decoded characters and the remainder after the closing quote.  Raw control
characters below U+0020 are rejected (`strict=True`). -/
def parseStringBody : List Char → Option (List Char × List Char)
  | [] => none
  | '"' :: rest => some ([], rest)
  | '\\' :: 'u' :: h1 :: h2 :: h3 :: h4 :: rest2 =>
    match hexVal h1, hexVal h2, hexVal h3, hexVal h4 with
    | some a, some b, some c2, some d =>
      (parseStringBody rest2).map
        (fun p => (Char.ofNat (4096 * a + 256 * b + 16 * c2 + d) :: p.1, p.2))
    | _, _, _, _ => none
  | '\\' :: e :: rest2 =>
    match jsonUnescapeChar e with
    | some dec => (parseStringBody rest2).map (fun p => (dec :: p.1, p.2))
    | none => none
  | ['\\'] => none
  | c :: rest =>
    if c.toNat < 32 then none
    else (parseStringBody rest).map (fun p => (c :: p.1, p.2))

/-- Strip an optional leading minus sign of a number token. -/
def signSplit (cs : List Char) : Bool × List Char :=
  match cs with
  | '-' :: t => (true, t)
  | _ => (false, cs)

/-- The greedy fraction part of a number token: `.` followed by at least one
digit, or nothing. -/
def fracSplit (cs : List Char) : List Char × List Char :=
  match cs with
  | '.' :: t =>
    let ds := t.takeWhile Char.isDigit
    if ds.isEmpty then ([], cs) else ('.' :: ds, t.drop ds.length)
  | _ => ([], cs)

/-- The greedy exponent part of a number token: `e`/`E`, optional sign, at
least one digit, or nothing. -/
def expSplit (cs : List Char) : List Char × List Char :=
  match cs with
  | e :: t =>
    if e = 'e' ∨ e = 'E' then
      let sgnSplit : List Char × List Char :=
        match t with
        | '+' :: u => (['+'], u)
        | '-' :: u => (['-'], u)
        | _ => ([], t)
      let ds := sgnSplit.2.takeWhile Char.isDigit
      if ds.isEmpty then ([], cs)
      else (e :: (sgnSplit.1 ++ ds), sgnSplit.2.drop ds.length)
    else ([], cs)
  | [] => ([], cs)

/-- The decimal value of a most-significant-first digit-character list. -/
def digitsValue (ds : List Char) : Nat :=
  Nat.ofDigits 10 ((ds.map (fun d => d.toNat - 48)).reverse)

/-- Parse a number token (greedy, like the scanner's `NUMBER_RE`, including
its leading-zero restriction on the integer part): integer tokens become
exact `num` values, tokens with a fraction or exponent are kept verbatim as
`numRaw`. -/
def parseNum (cs : List Char) : Option (Json × List Char) :=
  let signed := signSplit cs
  match signed.2 with
  | [] => none
  | c :: _ =>
    if c.isDigit = false then none
    else
      let cs1 := signed.2
      let intPart := if c = '0' then ['0'] else cs1.takeWhile Char.isDigit
      let rest1 := cs1.drop intPart.length
      let fracced := fracSplit rest1
      let expped := expSplit fracced.2
      if fracced.1.isEmpty ∧ expped.1.isEmpty then
        some (.num (if signed.1 then -(digitsValue intPart : Int)
                    else (digitsValue intPart : Int)), rest1)
      else
        let tok := (if signed.1 then ['-'] else []) ++ intPart ++ fracced.1 ++ expped.1
        some (.numRaw (String.mk tok), expped.2)

/-- Rebuild an object from parsed key/value pairs with Python dict update
semantics: a repeated key overwrites the stored value in place. -/
def objOfPairs (pairs : List (String × Json)) : List (String × Json) :=
  pairs.foldl (fun d kv => assocSet kv.1 kv.2 d) []

mutual

/-- Parse one JSON value (after optional whitespace). -/
def parseVal : Nat → List Char → Option (Json × List Char)
  | 0, _ => none
  | fuel + 1, cs =>
    match skipWs cs with
    | 'n' :: 'u' :: 'l' :: 'l' :: rest => some (.null, rest)
    | 't' :: 'r' :: 'u' :: 'e' :: rest => some (.bool true, rest)
    | 'f' :: 'a' :: 'l' :: 's' :: 'e' :: rest => some (.bool false, rest)
    | 'N' :: 'a' :: 'N' :: rest => some (.numRaw "NaN", rest)
    | 'I' :: 'n' :: 'f' :: 'i' :: 'n' :: 'i' :: 't' :: 'y' :: rest =>
      some (.numRaw "Infinity", rest)
    | '-' :: 'I' :: 'n' :: 'f' :: 'i' :: 'n' :: 'i' :: 't' :: 'y' :: rest =>
      some (.numRaw "-Infinity", rest)
    | '"' :: rest => (parseStringBody rest).map (fun p => (.str (String.mk p.1), p.2))
    | '[' :: rest =>
      match skipWs rest with
      | ']' :: rest2 => some (.arr [], rest2)
      | _ =>
        match parseVal fuel rest with
        | some (v, r1) =>
          (parseArrItems fuel r1).map (fun p => (.arr (v :: p.1), p.2))
        | none => none
    | '{' :: rest =>
      match skipWs rest with
      | '}' :: rest2 => some (.obj [], rest2)
      | _ =>
        match parsePair fuel rest with
        | some (kv, r1) =>
          (parseMembers fuel r1).map (fun p => (.obj (objOfPairs (kv :: p.1)), p.2))
        | none => none
    | other => parseNum other

/-- After the first array element: `,` then the next element, or `]`. -/
def parseArrItems : Nat → List Char → Option (List Json × List Char)
  | 0, _ => none
  | fuel + 1, cs =>
    match skipWs cs with
    | ']' :: rest => some ([], rest)
    | ',' :: rest =>
      match parseVal fuel rest with
      | some (v, r1) => (parseArrItems fuel r1).map (fun p => (v :: p.1, p.2))
      | none => none
    | _ => none

/-- One `"key": value` pair of an object. -/
def parsePair : Nat → List Char → Option ((String × Json) × List Char)
  | 0, _ => none
  | fuel + 1, cs =>
    match skipWs cs with
    | '"' :: rest =>
      match parseStringBody rest with
      | some (k, r1) =>
        match skipWs r1 with
        | ':' :: r2 => (parseVal fuel r2).map (fun p => ((String.mk k, p.1), p.2))
        | _ => none
      | none => none
    | _ => none

/-- After the first object pair: `,` then the next pair, or `}`. -/
def parseMembers : Nat → List Char → Option (List (String × Json) × List Char)
  | 0, _ => none
  | fuel + 1, cs =>
    match skipWs cs with
    | '}' :: rest => some ([], rest)
    | ',' :: rest =>
      match parsePair fuel rest with
      | some (kv, r1) => (parseMembers fuel r1).map (fun p => (kv :: p.1, p.2))
      | none => none
    | _ => none

end

/-- The whole-document parse, `json.loads`: one value, then only whitespace
may remain. -/
def jsonLoads (s : String) : Option Json :=
  match parseVal (s.data.length + 1) s.data with
  | some (v, rest) => if (skipWs rest).isEmpty then some v else none
  | none => none

/-- A character list that cannot extend a preceding number token: empty, or
starting with something that is neither a digit nor `.`/`e`/`E`. -/
def numBoundaryB : List Char → Bool
  | [] => true
  | c :: _ => !(c.isDigit || c = '.' || c = 'e' || c = 'E')

/-! ## Revision cache persistence (`setstatsrendered.load_revision_cache`,
`setstatsrendered.dump_revision_cache`)

The backing file is modelled as `Option String`: `none` when
`path.exists()` is false, otherwise the file's text. -/

/-- `load_revision_cache(path)`.  The second component records whether the
"Failed to parse revision cache" warning was emitted (the
`json.JSONDecodeError` branch).  A parse that succeeds with a non-object
top-level value falls through to the final `return {}` with no warning. -/
def load_revision_cache (contents : Option String) :
    (List (String × Json)) × Bool :=
  match contents with
  | none => ([], false)
  | some s =>
    match jsonLoads s with
    | some (Json.obj fields) => (fields, false)
    | some _ => ([], false)
    | none => ([], true)

/-- `dump_revision_cache(cache, path)`: the text written to the file,
`json.dump(cache, f, indent=2, ensure_ascii=False)`. -/
def dump_revision_cache (cache : List (String × Json)) : String :=
  jsonDumps (Json.obj cache)

/-! ## Stats fetch engine (`update_module_data.fetch_scryfall_stats`)

The upstream is an environment `String → ScryResponse` giving, per query
string, the response the (retry-wrapped) `scryfall_query` call returns; the
`@retry` wrapper and the cache-disabling branch do not change the returned
value and are absorbed into the environment. -/

/-- `COLOR_ORDER` from `update_module_data.py`. -/
def COLOR_ORDER : List String := ["c", "w", "u", "b", "r", "g", "m"]

/-- The surface of a `requests.Response` the code consults: the status code,
the `total_cards` field of the JSON payload (`none` when the key is absent),
and whether `"Display options"` occurs in the body text. -/
structure ScryResponse where
  status_code : Nat
  total_cards : Option Nat
  displayOptionsInText : Bool

/-- `requests.Response.ok`: status code below 400. -/
def ScryResponse.ok (r : ScryResponse) : Bool := r.status_code < 400

/-- `fetch_scryfall_stats(session, query)`: one pass per category in
`COLOR_ORDER`, building the `stats` dict (the category codes are already
lower-case, so `color.lower()` is the category code itself). -/
def fetchStep (env : String → ScryResponse) (query : String)
    (stats : List (String × Nat)) (color : String) : List (String × Nat) :=
  let full_query := "(" ++ query ++ ") id=" ++ color
  let no_brackets := query ++ " id=" ++ color
  let response := env full_query
  if response.ok then
    assocSet color (response.total_cards.getD 0) stats
  else if response.status_code == 404 then
    assocSet color 0 stats
  else if response.status_code == 400 && response.displayOptionsInText then
    let r2 := env no_brackets
    if r2.ok then assocSet color (r2.total_cards.getD 0) stats
    else if r2.status_code == 404 then assocSet color 0 stats
    else stats
  else
    assocSet color 0 stats

def fetch_scryfall_stats (env : String → ScryResponse) (query : String) :
    List (String × Nat) :=
  COLOR_ORDER.foldl (fetchStep env query) []

/-- The count `fetch_scryfall_stats` records for a single category, read off
the same branch structure: `none` exactly when the 400-with-"Display options"
fallback itself ends neither ok nor 404, in which case no assignment to
`stats[color]` happens on either path. -/
def categoryOutcome (env : String → ScryResponse) (query color : String) :
    Option Nat :=
  let response := env ("(" ++ query ++ ") id=" ++ color)
  if response.ok then some (response.total_cards.getD 0)
  else if response.status_code == 404 then some 0
  else if response.status_code == 400 && response.displayOptionsInText then
    let r2 := env (query ++ " id=" ++ color)
    if r2.ok then some (r2.total_cards.getD 0)
    else if r2.status_code == 404 then some 0
    else none
  else some 0

/-! ## Lua module renderer (`update_module_data.lua_from_mapping`) -/

/-- A one-character string holding a single quote. -/
def squote : String := String.mk [squoteChar]

/-- `lua_from_mapping(data)`: the `lines` list joined with newlines.  The
input is the insertion-ordered mapping query → (category → rendered count),
exactly `dict[str, dict[str, str]]`. -/
def lua_from_mapping (data : List (String × List (String × String))) : String :=
  let lines : List String :=
    ["-- Auto-generated data. Edit carefully.", "return \x7b"] ++
    (data.map (fun qs =>
      ["    [" ++ squote ++ qs.1 ++ squote ++ "] = \x7b",
       "        " ++ String.intercalate ", "
         (COLOR_ORDER.map (fun color => color ++ " = " ++ ((qs.2.lookup color).getD "0"))),
       "    \x7d,"])).flatten ++
    ["\x7d", ""]
  String.intercalate "\n" lines

/-! ## Query extractor (`setstatsrendered.process_page`)

A rendered page is modelled as the list of `href` values of its `<a>`
elements (BeautifulSoup's `soup.find_all("a", href=True)` is the excluded
HTML-parsing collaborator).  `urllib.parse.urlparse` / `parse_qs` /
`unquote_plus` are modelled below; percent-escapes decode byte-per-byte
(exact on ASCII; multi-byte UTF-8 recombination is outside the model). -/

/-- `urllib.parse.unquote_plus`: `+` becomes a space and `%xx` pairs decode;
invalid escapes pass through verbatim. -/
def unquotePlusChars : List Char → List Char
  | [] => []
  | '%' :: h1 :: h2 :: rest =>
    match hexVal h1, hexVal h2 with
    | some a, some b => Char.ofNat (16 * a + b) :: unquotePlusChars rest
    | _, _ => '%' :: unquotePlusChars (h1 :: h2 :: rest)
  | '+' :: rest => ' ' :: unquotePlusChars rest
  | c :: rest => c :: unquotePlusChars rest

/-- `urllib.parse.parse_qsl` with default arguments: split on `&`, skip empty
fields, skip fields without `=`, skip empty values
(`keep_blank_values=False`), decode names and values with `unquote_plus`. -/
def parseQsl (qs : List Char) : List (String × String) :=
  (splitOnChar '&' qs).filterMap (fun field =>
    if field.isEmpty then none
    else
      match splitFirst '=' field with
      | none => none
      | some (name, value) =>
        if value.isEmpty then none
        else some (String.mk (unquotePlusChars name), String.mk (unquotePlusChars value)))

/-- `urllib.parse.parse_qs`: group the pairs into an insertion-ordered
multi-dict. -/
def parse_qs (qs : List Char) : List (String × List String) :=
  (parseQsl qs).foldl (fun d nv => assocAppend nv.1 nv.2 d) []

/-- The query component `urlparse(url).query`: the fragment (after the first
`#`) is split off first, then the query is everything after the first `?` of
what remains. -/
def urlQuery (url : String) : List Char :=
  let beforeFrag := url.data.takeWhile (fun c => c != '#')
  (beforeFrag.dropWhile (fun c => c != '?')).drop 1

/-- The substring filter `"scryfall.com/search?q=" in url`. -/
def SCRYFALL_SEARCH_SIG : List Char := "scryfall.com/search?q=".data

/-- The per-link body of `process_page`'s loop: the query this link
contributes, if any — the link's URL must contain the search signature, its
parsed query string must carry `q` and no `utm_source`, only the first `q`
value is consulted, and a candidate without a colon is skipped. -/
def linkCandidate (url : String) : Option String :=
  if containsSub SCRYFALL_SEARCH_SIG url.data then
    let query_params := parse_qs (urlQuery url)
    match query_params.lookup "q", query_params.lookup "utm_source" with
    | some (search :: _), none =>
      if search.data.contains ':' then some search else none
    | _, _ => none
  else none

/-- `process_page`: accumulate the candidates into a set and return them
sorted (`sorted(page_queries)`). -/
def process_page (links : List String) : List String :=
  ((links.filterMap linkCandidate).toFinset.sort (· ≤ ·))

/-! ## Incremental crawl controller (`setstatsrendered.main`, crawl loop)

The wiki collaborator is modelled per page: its title, its current
`latest_revision_id`, its latest-revision timestamp, and the outcome of the
fetch-and-extract step (`process_page` together with the revision-record
build) — either the extracted queries or a `pywikibot.exceptions.TimeoutError`
raised inside the `try` block before the cache assignment.  Cache values are
the JSON objects (field lists) of the persisted schema. -/

/-- What happens when the controller must actually fetch a page. -/
inductive FetchOutcome where
  | success (queries : List String)
  | timeout

/-- One page yielded by the template-transclusion generator. -/
structure PageInput where
  title : String
  latest_rev_id : Nat
  timestamp : Option String
  outcome : FetchOutcome

/-- `register_page_queries(page_title, page_queries, queries)`. -/
def register_page_queries (page_title : String) (page_queries : List String)
    (queries : List (String × List String)) : List (String × List String) :=
  page_queries.foldl (fun qs search => assocAppend search page_title qs) queries

/-- `current_revision_record(page, rev_id, page_queries)` as called from
`main`: `rev_id` is always supplied and `queries` always included. -/
def current_revision_record (page : PageInput) (rev_id : Nat)
    (page_queries : List String) : List (String × Json) :=
  [("rev_id", Json.num rev_id),
   ("timestamp",
     match page.timestamp with
     | some ts => Json.str ts
     | none => Json.null),
   ("queries", Json.arr (page_queries.map Json.str))]

/-- Python `cached_revision.get("rev_id") == latest_rev_id` on a JSON value:
equal for a matching integer, with Python's `bool == int` identification;
other shapes (including `None` for a missing key) compare unequal. -/
def jsonEqNat (j : Option Json) (n : Nat) : Bool :=
  match j with
  | some (Json.num m) => m == (n : Int)
  | some (Json.bool b) => (b && n == 1) || (!b && n == 0)
  | _ => false

/-- `cached_revision.get("queries")` followed by the `is None` test: only the
array-of-strings shape — the only shape this program writes — is modelled as
present; a missing field or JSON `null` reports `none` (reprocess). -/
def entryQueries (fields : List (String × Json)) : Option (List String) :=
  match fields.lookup "queries" with
  | some (Json.arr items) =>
    some (items.filterMap (fun j =>
      match j with
      | Json.str s => some s
      | _ => none))
  | _ => none

/-- The incremental-skip test of `main`: the title's cache entry must be
truthy (a non-empty dict), its `rev_id` must equal the page's current
revision id, and it must carry a non-`None` `queries` field; the cached
queries are returned exactly when all three hold. -/
def cacheHitQueries (cache : List (String × List (String × Json)))
    (page : PageInput) : Option (List String) :=
  match cache.lookup page.title with
  | some fields =>
    if fields.isEmpty then none
    else if jsonEqNat (fields.lookup "rev_id") page.latest_rev_id then
      entryQueries fields
    else none
  | none => none

/-- The controller's mutable state, plus observation fields: `errors` logs
the titles whose processing timed out, `flushes` records every
`dump_queries_to_file` + `dump_revision_cache` checkpoint (as the snapshot
written), and `log` records, per yielded page, its enumeration index and
whether the page was fully processed (extracted and cached) this run. -/
structure CrawlState where
  seen : List String
  queries : List (String × List String)
  cache : List (String × List (String × Json))
  errors : List String
  flushes : List ((List (String × List String)) × (List (String × List (String × Json))))
  log : List (Nat × Bool)

/-- The body of the per-page loop of `main`, at enumeration index `idx`. -/
def crawlStep (st : CrawlState) (idx : Nat) (page : PageInput) : CrawlState :=
  if page.title ∈ st.seen then { st with log := st.log ++ [(idx, false)] }
  else
    let seen' := st.seen ++ [page.title]
    match cacheHitQueries st.cache page with
    | some cached_queries =>
      { st with
        seen := seen'
        queries := register_page_queries page.title cached_queries st.queries
        log := st.log ++ [(idx, false)] }
    | none =>
      match page.outcome with
      | .timeout =>
        { st with
          seen := seen'
          errors := st.errors ++ [page.title]
          log := st.log ++ [(idx, false)] }
      | .success page_queries =>
        let queries' := register_page_queries page.title page_queries st.queries
        let cache' := assocSet page.title
          (current_revision_record page page.latest_rev_id page_queries) st.cache
        let flushes' :=
          if (idx + 1) % 100 == 0 then st.flushes ++ [(queries', cache')]
          else st.flushes
        { seen := seen'
          queries := queries'
          cache := cache'
          errors := st.errors
          flushes := flushes'
          log := st.log ++ [(idx, true)] }

/-- One template's iteration: `enumerate(scryfall_generator)`. -/
def runTemplate (st : CrawlState) (pages : List PageInput) : CrawlState :=
  pages.enum.foldl (fun s ip => crawlStep s ip.1 ip.2) st

/-- The state `main` starts from, with the loaded revision cache. -/
def initialCrawlState (cache0 : List (String × List (String × Json))) : CrawlState :=
  { seen := [], queries := [], cache := cache0, errors := [], flushes := [], log := [] }

/-- The whole crawl of `main`: every template in `TEMPLATES_TO_CHECK` in
order, then the single unconditional final dump of both files. -/
def runCrawl (templates : List (List PageInput))
    (cache0 : List (String × List (String × Json))) : CrawlState :=
  let stF := templates.foldl runTemplate (initialCrawlState cache0)
  { stF with flushes := stF.flushes ++ [(stF.queries, stF.cache)] }

/-- A concrete revision-cache mapping used as a witness input. -/
def exampleCache : List (String × Json) :=
  [("Page two", Json.obj
    [("rev_id", Json.num 42),
     ("timestamp", Json.str "2024-01-01T00:00:00"),
     ("queries", Json.arr [Json.str "a:b", Json.str "c:d"])])]

/-! ## Supporting lemmas: decimal digits -/

theorem natDigitsLE_eq_digits (f : Nat) : ∀ n : Nat, n ≤ f → natDigitsLE f n = Nat.digits 10 n := by
  induction f with
  | zero =>
    intro n hn
    interval_cases n
    simp [natDigitsLE]
  | succ f ih =>
    intro n hn
    by_cases hz : n = 0
    · simp [natDigitsLE, hz]
    · rw [natDigitsLE, if_neg hz, Nat.digits_def' (by norm_num : 1 < 10) (Nat.pos_of_ne_zero hz)]
      have hlt : n / 10 < n := Nat.div_lt_self (Nat.pos_of_ne_zero hz) (by norm_num)
      rw [ih (n / 10) (by omega)]

theorem natChars_eq (n : Nat) (hn : n ≠ 0) :
    natChars n = ((Nat.digits 10 n).map (fun d => Char.ofNat (48 + d))).reverse := by
  rw [natChars, if_neg hn, natDigitsLE_eq_digits n n le_rfl]

theorem digitCharFacts : ∀ d, d < 10 →
    (Char.ofNat (48 + d)).isDigit = true ∧ isJsonWs (Char.ofNat (48 + d)) = false ∧
    (Char.ofNat (48 + d)).toNat = 48 + d ∧ Char.ofNat (48 + d) ≠ '-' ∧
    Char.ofNat (48 + d) ≠ ']' ∧ Char.ofNat (48 + d) ≠ '}' := by decide

theorem digitCharNeZero : ∀ d, d < 10 → d ≠ 0 → Char.ofNat (48 + d) ≠ '0' := by decide

theorem natChars_all_digit (n : Nat) : ∀ c ∈ natChars n, c.isDigit = true := by
  intro c hc
  by_cases hn : n = 0
  · subst hn
    have h0 : natChars 0 = ['0'] := rfl
    rw [h0, List.mem_singleton] at hc
    subst hc
    decide
  · rw [natChars_eq n hn] at hc
    simp only [List.mem_reverse, List.mem_map] at hc
    obtain ⟨d, hd, rfl⟩ := hc
    exact (digitCharFacts d (Nat.digits_lt_base (by norm_num) hd)).1

theorem natChars_ne_nil (n : Nat) : natChars n ≠ [] := by
  by_cases hn : n = 0
  · simp [natChars, hn]
  · rw [natChars_eq n hn]
    simp [Nat.digits_ne_nil_iff_ne_zero, hn]

theorem natChars_head_ne_zero (n : Nat) (hn : n ≠ 0) :
    ∀ c t, natChars n = c :: t → c ≠ '0' := by
  intro c t h
  have hne : Nat.digits 10 n ≠ [] := Nat.digits_ne_nil_iff_ne_zero.mpr hn
  have hlast :
      ((Nat.digits 10 n).map (fun d => Char.ofNat (48 + d))).getLast? = some c := by
    rw [← List.head?_reverse, ← natChars_eq n hn, h]
    rfl
  rw [List.getLast?_map] at hlast
  rw [List.getLast?_eq_getLast _ hne] at hlast
  set d := (Nat.digits 10 n).getLast hne with hd
  have hdm : d ∈ Nat.digits 10 n := List.getLast_mem hne
  have hlt : d < 10 := Nat.digits_lt_base (by norm_num) hdm
  have hdz : d ≠ 0 := Nat.getLast_digit_ne_zero 10 hn
  have : c = Char.ofNat (48 + d) := by
    simpa using hlast.symm
  subst this
  exact digitCharNeZero d hlt hdz

theorem digitsValue_natChars (n : Nat) : digitsValue (natChars n) = n := by
  by_cases hn : n = 0
  · subst hn
    decide
  · rw [natChars_eq n hn]
    unfold digitsValue
    rw [List.map_reverse, List.reverse_reverse, List.map_map]
    have : ((fun d : Char => d.toNat - 48) ∘ fun d : Nat => Char.ofNat (48 + d)) =
        fun d : Nat => (Char.ofNat (48 + d)).toNat - 48 := rfl
    rw [this]
    have hmap : (Nat.digits 10 n).map (fun d : Nat => (Char.ofNat (48 + d)).toNat - 48) =
        (Nat.digits 10 n).map id := by
      apply List.map_congr_left
      intro d hd
      have hlt : d < 10 := Nat.digits_lt_base (by norm_num) hd
      have := (digitCharFacts d hlt).2.2.1
      simp [this]
    rw [hmap, List.map_id]
    exact Nat.ofDigits_digits 10 n

/-! ## Supporting lemmas: whitespace and token boundaries -/

theorem skipWs_append_ws (ws cs : List Char) (h : ∀ c ∈ ws, isJsonWs c = true) :
    skipWs (ws ++ cs) = skipWs cs := by
  induction ws with
  | nil => rfl
  | cons c t ih =>
    have hc : isJsonWs c = true := h c (by simp)
    simp only [List.cons_append, skipWs, List.dropWhile_cons, hc, if_true]
    exact ih (fun d hd => h d (by simp [hd]))

theorem skipWs_nlInd (l : Nat) (cs : List Char) : skipWs (nlInd l ++ cs) = skipWs cs := by
  apply skipWs_append_ws
  intro c hc
  rw [nlInd] at hc
  rcases List.mem_cons.mp hc with h | h
  · subst h; rfl
  · rw [List.eq_of_mem_replicate h]; rfl

theorem skipWs_cons_not_ws (c : Char) (cs : List Char) (h : isJsonWs c = false) :
    skipWs (c :: cs) = c :: cs := by
  simp [skipWs, List.dropWhile_cons, h]

theorem parseVal_congr_ws (f : Nat) (cs₁ cs₂ : List Char) (h : skipWs cs₁ = skipWs cs₂) :
    parseVal f cs₁ = parseVal f cs₂ := by
  cases f with
  | zero => rfl
  | succ f => rw [parseVal, parseVal, h]

theorem parseArrItems_congr_ws (f : Nat) (cs₁ cs₂ : List Char) (h : skipWs cs₁ = skipWs cs₂) :
    parseArrItems f cs₁ = parseArrItems f cs₂ := by
  cases f with
  | zero => rfl
  | succ f => rw [parseArrItems, parseArrItems, h]

theorem parsePair_congr_ws (f : Nat) (cs₁ cs₂ : List Char) (h : skipWs cs₁ = skipWs cs₂) :
    parsePair f cs₁ = parsePair f cs₂ := by
  cases f with
  | zero => rfl
  | succ f => rw [parsePair, parsePair, h]

theorem parseMembers_congr_ws (f : Nat) (cs₁ cs₂ : List Char) (h : skipWs cs₁ = skipWs cs₂) :
    parseMembers f cs₁ = parseMembers f cs₂ := by
  cases f with
  | zero => rfl
  | succ f => rw [parseMembers, parseMembers, h]

theorem takeWhile_append_of_all (p : Char → Bool) :
    ∀ (xs rest : List Char), (∀ c ∈ xs, p c = true) →
    (∀ c, rest.head? = some c → p c = false) →
    (xs ++ rest).takeWhile p = xs := by
  intro xs
  induction xs with
  | nil =>
    intro rest _ hr
    cases rest with
    | nil => rfl
    | cons c t => simp [List.takeWhile_cons, hr c rfl]
  | cons x xs ih =>
    intro rest hall hr
    have hx : p x = true := hall x (by simp)
    simp only [List.cons_append, List.takeWhile_cons, hx, if_true]
    rw [ih rest (fun c hc => hall c (by simp [hc])) hr]

/-! ## Supporting lemmas: number tokens -/

theorem signSplit_minus (t : List Char) : signSplit ('-' :: t) = (true, t) := rfl

theorem signSplit_other (cs : List Char) (h : ∀ t, cs ≠ '-' :: t) :
    signSplit cs = (false, cs) := by
  unfold signSplit
  split
  · exact absurd rfl (h _)
  · rfl

theorem fracSplit_none (cs : List Char) (h : ∀ t, cs ≠ '.' :: t) :
    fracSplit cs = ([], cs) := by
  unfold fracSplit
  split
  · exact absurd rfl (h _)
  · rfl

theorem expSplit_none (cs : List Char) (h : ∀ c, cs.head? = some c → ¬(c = 'e' ∨ c = 'E')) :
    expSplit cs = ([], cs) := by
  cases cs with
  | nil => rfl
  | cons c t =>
    have hc := h c rfl
    unfold expSplit
    simp only [if_neg hc]

theorem numBoundary_head (rest : List Char) (hb : numBoundaryB rest = true) :
    ∀ c, rest.head? = some c →
      c.isDigit = false ∧ c ≠ '.' ∧ c ≠ 'e' ∧ c ≠ 'E' := by
  intro c hc
  cases rest with
  | nil => simp at hc
  | cons r t =>
    simp only [List.head?_cons, Option.some.injEq] at hc
    subst hc
    simp only [numBoundaryB, Bool.not_eq_true'] at hb
    simp only [Bool.or_eq_false_iff] at hb
    refine ⟨hb.1.1.1, ?_, ?_, ?_⟩ <;>
      simp_all [decide_eq_false_iff_not]

theorem parseNum_natChars (sign : Bool) (n : Nat) (rest : List Char)
    (hb : numBoundaryB rest = true) :
    parseNum ((if sign then ['-'] else []) ++ (natChars n ++ rest)) =
      some (.num (if sign then -(n : Int) else (n : Int)), rest) := by
  obtain ⟨c, t, hct⟩ : ∃ c t, natChars n = c :: t := by
    cases h : natChars n with
    | nil => exact absurd h (natChars_ne_nil n)
    | cons c t => exact ⟨c, t, rfl⟩
  have hcd : c.isDigit = true := natChars_all_digit n c (by rw [hct]; simp)
  have hcm : c ≠ '-' := by
    intro h
    subst h
    simp [Char.isDigit] at hcd
  have hsign : signSplit ((if sign then ['-'] else []) ++ (natChars n ++ rest)) =
      (sign, natChars n ++ rest) := by
    cases sign with
    | true => simp [signSplit_minus]
    | false =>
      have hif : (if (false : Bool) = true then ['-'] else ([] : List Char)) = [] := rfl
      rw [hif, List.nil_append]
      apply signSplit_other
      intro u h
      rw [hct] at h
      simp only [List.cons_append] at h
      injection h with h1 h2
      exact hcm h1
  have hrhead := numBoundary_head rest hb
  have htake : (natChars n ++ rest).takeWhile Char.isDigit = natChars n :=
    takeWhile_append_of_all Char.isDigit (natChars n) rest (natChars_all_digit n)
      (fun d hd => (hrhead d hd).1)
  have hfrac : fracSplit rest = ([], rest) := by
    apply fracSplit_none
    intro u h
    subst h
    exact (hrhead '.' rfl).2.1 rfl
  have hexp : expSplit rest = ([], rest) := by
    apply expSplit_none
    intro d hd hor
    rcases hor with h | h
    · exact (hrhead d hd).2.2.1 h
    · exact (hrhead d hd).2.2.2 h
  by_cases hn : n = 0
  · subst hn
    have h0 : natChars 0 = ['0'] := rfl
    rw [h0] at hct
    injection hct with hc0 ht0
    subst ht0
    cases hc0
    simp only [h0, List.singleton_append] at hsign
    simp only [parseNum, hsign, h0, List.singleton_append]
    simp [hfrac, hexp, digitsValue, Nat.ofDigits]
  · have hzero : c ≠ '0' := natChars_head_ne_zero n hn c t hct
    have hval := digitsValue_natChars n
    rw [hct] at htake hval hsign
    simp only [List.cons_append] at htake hsign
    simp only [parseNum, hsign, hct, List.cons_append]
    have hdrop : List.drop (c :: t).length (c :: (t ++ rest)) = rest := by
      rw [← List.cons_append]
      exact List.drop_left _ _
    simp only [hcd, Bool.true_eq_false, if_false, if_neg hzero, htake, hdrop, hfrac, hexp, hval]
    simp

theorem parseNum_intChars (i : Int) (rest : List Char) (hb : numBoundaryB rest = true) :
    parseNum (intChars i ++ rest) = some (.num i, rest) := by
  cases i with
  | ofNat n =>
    have h := parseNum_natChars false n rest hb
    simpa [intChars] using h
  | negSucc m =>
    have h := parseNum_natChars true (m + 1) rest hb
    simp only [if_true, List.singleton_append] at h
    simp only [intChars, List.cons_append]
    rw [h]
    have h2 : -((m + 1 : Nat) : Int) = Int.negSucc m := by
      rw [Int.negSucc_eq]
      push_cast
      ring
    rw [h2]

/-! ## Supporting lemmas: string literals -/

theorem parse_u_escape (n : Nat) (h : n < 32) (tail : List Char) :
    parseStringBody ('\\' :: 'u' :: (hex4 n ++ tail)) =
      (parseStringBody tail).map (fun p => (Char.ofNat n :: p.1, p.2)) := by
  interval_cases n <;> rfl

theorem parseStringBody_raw (c : Char) (X : List Char)
    (h1 : c ≠ '"') (h2 : c ≠ '\\') (h3 : 32 ≤ c.toNat) :
    parseStringBody (c :: X) = (parseStringBody X).map (fun p => (c :: p.1, p.2)) := by
  rw [parseStringBody.eq_def]
  split
  · rename_i heq
    exact absurd heq (by simp)
  · rename_i heq
    injection heq with hh _
    exact absurd hh h1
  · rename_i heq
    injection heq with hh _
    exact absurd hh h2
  · rename_i heq
    injection heq with hh _
    exact absurd hh h2
  · rename_i heq
    injection heq with hh _
    exact absurd hh h2
  · rename_i heq
    injection heq with hh hX
    subst hh
    subst hX
    rw [if_neg (by omega)]

theorem parseStringBody_escape (s rest : List Char) :
    parseStringBody (escapeChars s ++ '"' :: rest) = some (s, rest) := by
  induction s with
  | nil => rfl
  | cons c t ih =>
    have hesc : escapeChars (c :: t) = jsonEscapeChar c ++ escapeChars t := by
      simp [escapeChars]
    rw [hesc, List.append_assoc]
    by_cases h1 : c = '"'
    · subst h1
      show parseStringBody ('\\' :: '"' :: (escapeChars t ++ '"' :: rest)) = _
      rw [show ∀ X, parseStringBody ('\\' :: '"' :: X) =
            (parseStringBody X).map (fun p => ('"' :: p.1, p.2)) from fun _ => rfl, ih]
      rfl
    by_cases h2 : c = '\\'
    · subst h2
      show parseStringBody ('\\' :: '\\' :: (escapeChars t ++ '"' :: rest)) = _
      rw [show ∀ X, parseStringBody ('\\' :: '\\' :: X) =
            (parseStringBody X).map (fun p => ('\\' :: p.1, p.2)) from fun _ => rfl, ih]
      rfl
    by_cases h3 : c = Char.ofNat 8
    · subst h3
      show parseStringBody ('\\' :: 'b' :: (escapeChars t ++ '"' :: rest)) = _
      rw [show ∀ X, parseStringBody ('\\' :: 'b' :: X) =
            (parseStringBody X).map (fun p => (Char.ofNat 8 :: p.1, p.2)) from fun _ => rfl, ih]
      rfl
    by_cases h4 : c = Char.ofNat 12
    · subst h4
      show parseStringBody ('\\' :: 'f' :: (escapeChars t ++ '"' :: rest)) = _
      rw [show ∀ X, parseStringBody ('\\' :: 'f' :: X) =
            (parseStringBody X).map (fun p => (Char.ofNat 12 :: p.1, p.2)) from fun _ => rfl, ih]
      rfl
    by_cases h5 : c = '\n'
    · subst h5
      show parseStringBody ('\\' :: 'n' :: (escapeChars t ++ '"' :: rest)) = _
      rw [show ∀ X, parseStringBody ('\\' :: 'n' :: X) =
            (parseStringBody X).map (fun p => ('\n' :: p.1, p.2)) from fun _ => rfl, ih]
      rfl
    by_cases h6 : c = '\r'
    · subst h6
      show parseStringBody ('\\' :: 'r' :: (escapeChars t ++ '"' :: rest)) = _
      rw [show ∀ X, parseStringBody ('\\' :: 'r' :: X) =
            (parseStringBody X).map (fun p => ('\r' :: p.1, p.2)) from fun _ => rfl, ih]
      rfl
    by_cases h7 : c = '\t'
    · subst h7
      show parseStringBody ('\\' :: 't' :: (escapeChars t ++ '"' :: rest)) = _
      rw [show ∀ X, parseStringBody ('\\' :: 't' :: X) =
            (parseStringBody X).map (fun p => ('\t' :: p.1, p.2)) from fun _ => rfl, ih]
      rfl
    by_cases h8 : c.toNat < 32
    · have he : jsonEscapeChar c = '\\' :: 'u' :: hex4 c.toNat := by
        simp [jsonEscapeChar, h1, h2, h3, h4, h5, h6, h7, h8]
      rw [he]
      show parseStringBody ('\\' :: 'u' :: (hex4 c.toNat ++ (escapeChars t ++ '"' :: rest))) = _
      rw [parse_u_escape c.toNat h8, ih, Char.ofNat_toNat]
      rfl
    · have he : jsonEscapeChar c = [c] := by
        simp [jsonEscapeChar, h1, h2, h3, h4, h5, h6, h7, h8]
      rw [he, List.singleton_append,
        parseStringBody_raw c _ h1 h2 (by omega), ih]
      rfl

/-! ## Supporting lemmas: first characters of printed values -/

theorem digitCharLits : ∀ d, d < 10 →
    Char.ofNat (48 + d) ≠ 'n' ∧ Char.ofNat (48 + d) ≠ 't' ∧ Char.ofNat (48 + d) ≠ 'f' ∧
    Char.ofNat (48 + d) ≠ 'N' ∧ Char.ofNat (48 + d) ≠ 'I' ∧ Char.ofNat (48 + d) ≠ '"' ∧
    Char.ofNat (48 + d) ≠ '[' ∧ Char.ofNat (48 + d) ≠ '{' := by decide

theorem natChars_head_digitChar (n : Nat) :
    ∃ d t, d < 10 ∧ natChars n = Char.ofNat (48 + d) :: t := by
  by_cases hn : n = 0
  · subst hn
    exact ⟨0, [], by norm_num, rfl⟩
  · obtain ⟨c, t, hct⟩ : ∃ c t, natChars n = c :: t := by
      cases h : natChars n with
      | nil => exact absurd h (natChars_ne_nil n)
      | cons c t => exact ⟨c, t, rfl⟩
    have hne : Nat.digits 10 n ≠ [] := Nat.digits_ne_nil_iff_ne_zero.mpr hn
    have hlast :
        ((Nat.digits 10 n).map (fun d => Char.ofNat (48 + d))).getLast? = some c := by
      rw [← List.head?_reverse, ← natChars_eq n hn, hct]
      rfl
    rw [List.getLast?_map] at hlast
    rw [List.getLast?_eq_getLast _ hne] at hlast
    set d := (Nat.digits 10 n).getLast hne with hd
    have hdm : d ∈ Nat.digits 10 n := List.getLast_mem hne
    have hlt : d < 10 := Nat.digits_lt_base (by norm_num) hdm
    have hc : c = Char.ofNat (48 + d) := by simpa using hlast.symm
    exact ⟨d, t, hlt, by rw [hct, hc]⟩

theorem natChars_head_facts (n : Nat) :
    ∃ c t, natChars n = c :: t ∧ c.isDigit = true ∧ isJsonWs c = false ∧
      c ≠ '-' ∧ c ≠ ']' ∧ c ≠ '}' ∧ c ≠ 'n' ∧ c ≠ 't' ∧ c ≠ 'f' ∧ c ≠ 'N' ∧
      c ≠ 'I' ∧ c ≠ '"' ∧ c ≠ '[' ∧ c ≠ '{' := by
  obtain ⟨d, t, hlt, heq⟩ := natChars_head_digitChar n
  obtain ⟨f1, f2, f3, f4, f5, f6⟩ := digitCharFacts d hlt
  obtain ⟨g1, g2, g3, g4, g5, g6, g7, g8⟩ := digitCharLits d hlt
  exact ⟨_, t, heq, f1, f2, f4, f5, f6, g1, g2, g3, g4, g5, g6, g7, g8⟩

/-! ## Supporting lemmas: object reconstruction -/

theorem assocSet_not_mem {α : Type} (k : String) (v : α) (d : List (String × α))
    (h : k ∉ d.map Prod.fst) : assocSet k v d = d ++ [(k, v)] := by
  induction d with
  | nil => rfl
  | cons kv t ih =>
    obtain ⟨k', v'⟩ := kv
    simp only [List.map_cons, List.mem_cons] at h
    push_neg at h
    rw [assocSet, if_neg (fun hx : k' = k => h.1 hx.symm)]
    rw [ih h.2, List.cons_append]

theorem objOfPairs_go (pairs : List (String × Json)) :
    ∀ acc : List (String × Json), (((acc ++ pairs).map Prod.fst).Nodup) →
      pairs.foldl (fun d kv => assocSet kv.1 kv.2 d) acc = acc ++ pairs := by
  induction pairs with
  | nil => intro acc _; simp
  | cons kv t ih =>
    intro acc h
    have hmem : kv.1 ∉ acc.map Prod.fst := by
      intro hx
      rw [List.map_append] at h
      have hdisj := List.disjoint_of_nodup_append h
      exact hdisj hx (by simp)
    simp only [List.foldl_cons]
    rw [assocSet_not_mem _ _ _ hmem]
    have hre : (acc ++ [kv]) ++ t = acc ++ kv :: t := by simp
    have h2 : (((acc ++ [kv]) ++ t).map Prod.fst).Nodup := by rw [hre]; exact h
    rw [ih (acc ++ [kv]) h2, hre]

theorem objOfPairs_nodup (pairs : List (String × Json))
    (h : (pairs.map Prod.fst).Nodup) : objOfPairs pairs = pairs := by
  have := objOfPairs_go pairs [] (by simpa using h)
  simpa [objOfPairs] using this

theorem nodes_pos (v : Json) : 1 ≤ Json.nodes v := by
  cases v <;> simp [Json.nodes]

theorem nodesList_pos (vs : List Json) : 1 ≤ Json.nodesList vs := by
  cases vs with
  | nil => simp [Json.nodesList]
  | cons v t => simp [Json.nodesList]; omega

theorem nodesFields_pos (fs : List (String × Json)) : 1 ≤ Json.nodesFields fs := by
  cases fs with
  | nil => simp [Json.nodesFields]
  | cons f t => cases f; simp [Json.nodesFields]; omega

theorem parseVal_num (f : Nat) (i : Int) (rest : List Char) (hb : numBoundaryB rest = true) :
    parseVal (f + 1) (intChars i ++ rest) = some (.num i, rest) := by
  cases i with
  | ofNat n =>
    obtain ⟨d, t, hlt, heq⟩ := natChars_head_digitChar n
    have hdis : parseVal (f + 1) (natChars n ++ rest) = parseNum (natChars n ++ rest) := by
      rw [heq, List.cons_append]
      interval_cases d <;> rfl
    rw [show intChars (Int.ofNat n) = natChars n from rfl, hdis]
    exact parseNum_intChars (Int.ofNat n) rest hb
  | negSucc m =>
    obtain ⟨d, t, hlt, heq⟩ := natChars_head_digitChar (m + 1)
    have hdis : parseVal (f + 1) ('-' :: (natChars (m + 1) ++ rest)) =
        parseNum ('-' :: (natChars (m + 1) ++ rest)) := by
      rw [heq, List.cons_append]
      interval_cases d <;> rfl
    rw [show intChars (Int.negSucc m) ++ rest = '-' :: (natChars (m + 1) ++ rest) from by
      simp [intChars]]
    rw [hdis, ← List.cons_append]
    have h := parseNum_intChars (Int.negSucc m) rest hb
    simpa [intChars] using h

/-! ## Parser dispatch equations (definitional) -/

theorem skipWs_cons_ws (c : Char) (cs : List Char) (h : isJsonWs c = true) :
    skipWs (c :: cs) = skipWs cs := by
  simp [skipWs, List.dropWhile_cons, h]

theorem parseVal_arr_cons_eq (f : Nat) (X : List Char) :
    parseVal (f + 1) ('[' :: X) =
      (match skipWs X with
       | ']' :: rest2 => some (Json.arr [], rest2)
       | _ =>
         match parseVal f X with
         | some (v, r1) => (parseArrItems f r1).map (fun p => (Json.arr (v :: p.1), p.2))
         | none => none) := rfl

theorem parseVal_obj_cons_eq (f : Nat) (X : List Char) :
    parseVal (f + 1) ('{' :: X) =
      (match skipWs X with
       | '}' :: rest2 => some (Json.obj [], rest2)
       | _ =>
         match parsePair f X with
         | some (kv, r1) =>
           (parseMembers f r1).map (fun p => (Json.obj (objOfPairs (kv :: p.1)), p.2))
         | none => none) := rfl

theorem parsePair_str_eq (f : Nat) (W : List Char) :
    parsePair (f + 1) ('"' :: W) =
      (match parseStringBody W with
       | some (k, r1) =>
         match skipWs r1 with
         | ':' :: r2 => (parseVal f r2).map (fun p => ((String.mk k, p.1), p.2))
         | _ => none
       | none => none) := rfl

theorem parseArrItems_bracket_eq (f : Nat) (r : List Char) :
    parseArrItems (f + 1) (']' :: r) = some ([], r) := rfl

theorem parseArrItems_comma_eq (f : Nat) (Y : List Char) :
    parseArrItems (f + 1) (',' :: Y) =
      (match parseVal f Y with
       | some (v, r1) => (parseArrItems f r1).map (fun p => (v :: p.1, p.2))
       | none => none) := rfl

theorem parseMembers_brace_eq (f : Nat) (r : List Char) :
    parseMembers (f + 1) ('}' :: r) = some ([], r) := rfl

theorem parseMembers_comma_eq (f : Nat) (Y : List Char) :
    parseMembers (f + 1) (',' :: Y) =
      (match parsePair f Y with
       | some (kv, r1) => (parseMembers f r1).map (fun p => (kv :: p.1, p.2))
       | none => none) := rfl

theorem printJsonAt_head_facts (lvl : Nat) (v : Json) (h : Json.WF v) :
    ∃ c cs, printJsonAt lvl v = c :: cs ∧ isJsonWs c = false ∧ c ≠ ']' ∧ c ≠ '}' := by
  cases v with
  | null => exact ⟨'n', _, rfl, by decide, by decide, by decide⟩
  | bool b =>
    cases b with
    | false => exact ⟨'f', _, rfl, by decide, by decide, by decide⟩
    | true => exact ⟨'t', _, rfl, by decide, by decide, by decide⟩
  | num i =>
    cases i with
    | ofNat n =>
      obtain ⟨c, t, heq, _, hws, _, hrb, hbb, _⟩ := natChars_head_facts n
      exact ⟨c, t, by rw [show printJsonAt lvl (Json.num (Int.ofNat n)) = natChars n from rfl,
        heq], hws, hrb, hbb⟩
    | negSucc m => exact ⟨'-', _, rfl, by decide, by decide, by decide⟩
  | numRaw tok => exact absurd h (by simp [Json.WF])
  | str s => exact ⟨'"', _, rfl, by decide, by decide, by decide⟩
  | arr items =>
    cases items with
    | nil => exact ⟨'[', _, rfl, by decide, by decide, by decide⟩
    | cons x xs => exact ⟨'[', _, rfl, by decide, by decide, by decide⟩
  | obj fields =>
    cases fields with
    | nil => exact ⟨'{', _, rfl, by decide, by decide, by decide⟩
    | cons kv fs =>
      obtain ⟨k, v⟩ := kv
      exact ⟨'{', _, rfl, by decide, by decide, by decide⟩

theorem skipWs_print (lvl : Nat) (v : Json) (h : Json.WF v) (rest : List Char) :
    skipWs (printJsonAt lvl v ++ rest) = printJsonAt lvl v ++ rest := by
  obtain ⟨c, cs, heq, hws, _, _⟩ := printJsonAt_head_facts lvl v h
  rw [heq, List.cons_append, skipWs_cons_not_ws _ _ hws]

/-- Core round-trip: on well-formed values, the fuelled parser consumes
exactly the serializer's output, at any nesting level and before any
non-number-extending remainder. -/
theorem parse_print (fuel : Nat) :
    (∀ v : Json, Json.WF v → ∀ lvl rest, Json.nodes v ≤ fuel → numBoundaryB rest = true →
      parseVal fuel (printJsonAt lvl v ++ rest) = some (v, rest)) ∧
    (∀ vs : List Json, Json.WFList vs → ∀ lvlP lvlC rest, Json.nodesList vs ≤ fuel →
      parseArrItems fuel (printArrRest lvlP vs ++ (nlInd lvlC ++ (']' :: rest))) =
        some (vs, rest)) ∧
    (∀ kv : String × Json, Json.WF kv.2 → ∀ lvl rest, Json.nodes kv.2 + 1 ≤ fuel →
        numBoundaryB rest = true →
      parsePair fuel (quoteStr kv.1 ++ (':' :: (' ' :: (printJsonAt lvl kv.2 ++ rest)))) =
        some (kv, rest)) ∧
    (∀ fs : List (String × Json), Json.WFFields fs → ∀ lvlP lvlC rest,
        Json.nodesFields fs ≤ fuel →
      parseMembers fuel (printObjRest lvlP fs ++ (nlInd lvlC ++ ('}' :: rest))) =
        some (fs, rest)) := by
  induction fuel with
  | zero =>
    refine ⟨?_, ?_, ?_, ?_⟩
    · intro v _ _ _ hn _
      exfalso
      have := nodes_pos v
      omega
    · intro vs _ _ _ _ hn
      exfalso
      have := nodesList_pos vs
      omega
    · intro kv _ _ _ hn _
      exfalso
      have := nodes_pos kv.2
      omega
    · intro fs _ _ _ _ hn
      exfalso
      have := nodesFields_pos fs
      omega
  | succ f ih =>
    obtain ⟨ihA, ihB, ihC, ihD⟩ := ih
    refine ⟨?_, ?_, ?_, ?_⟩
    · -- values
      intro v hwf lvl rest hn hb
      cases v with
      | null => rfl
      | bool b => cases b <;> rfl
      | num i => exact parseVal_num f i rest hb
      | numRaw tok => exact absurd hwf (by simp [Json.WF])
      | str s =>
        have hstep : parseVal (f + 1) (printJsonAt lvl (.str s) ++ rest) =
            (parseStringBody ((escapeChars s.data ++ ['"']) ++ rest)).map
              (fun p => (Json.str (String.mk p.1), p.2)) := rfl
        rw [hstep, List.append_assoc, List.singleton_append, parseStringBody_escape]
        rfl
      | arr items =>
        cases items with
        | nil => rfl
        | cons x xs =>
          have hl : Json.WFList (x :: xs) := hwf
          obtain ⟨hwx, hwxs⟩ := hl
          have e1 : Json.nodes (Json.arr (x :: xs)) =
              1 + (1 + Json.nodes x + Json.nodesList xs) := rfl
          have hnlp := nodesList_pos xs
          have hnxp := nodes_pos x
          have hshape : printJsonAt lvl (Json.arr (x :: xs)) ++ rest =
              '[' :: (nlInd (lvl + 1) ++ (printJsonAt (lvl + 1) x ++
                (printArrRest (lvl + 1) xs ++ (nlInd lvl ++ (']' :: rest))))) := by
            show ('[' :: (nlInd (lvl + 1) ++ printJsonAt (lvl + 1) x ++
              printArrRest (lvl + 1) xs ++ nlInd lvl ++ [']'])) ++ rest = _
            simp [List.append_assoc]
          rw [hshape, parseVal_arr_cons_eq]
          have hskip : skipWs (nlInd (lvl + 1) ++ (printJsonAt (lvl + 1) x ++
              (printArrRest (lvl + 1) xs ++ (nlInd lvl ++ (']' :: rest))))) =
              printJsonAt (lvl + 1) x ++
                (printArrRest (lvl + 1) xs ++ (nlInd lvl ++ (']' :: rest))) := by
            rw [skipWs_nlInd]
            exact skipWs_print _ x hwx _
          rw [hskip]
          have hbT : numBoundaryB (printArrRest (lvl + 1) xs ++
              (nlInd lvl ++ (']' :: rest))) = true := by
            cases xs <;> rfl
          have hV : parseVal f (nlInd (lvl + 1) ++ (printJsonAt (lvl + 1) x ++
              (printArrRest (lvl + 1) xs ++ (nlInd lvl ++ (']' :: rest))))) =
              some (x, printArrRest (lvl + 1) xs ++ (nlInd lvl ++ (']' :: rest))) := by
            rw [parseVal_congr_ws f _ (printJsonAt (lvl + 1) x ++
              (printArrRest (lvl + 1) xs ++ (nlInd lvl ++ (']' :: rest))))
              (by rw [skipWs_nlInd])]
            exact ihA x hwx (lvl + 1) _ (by omega) hbT
          obtain ⟨c, cs, hceq, hcws, hcrb, hcbb⟩ := printJsonAt_head_facts (lvl + 1) x hwx
          rw [hceq, List.cons_append] at hV ⊢
          split
          · rename_i heq
            injection heq with hch _
            exact absurd hch hcrb
          · rw [hV]
            show (parseArrItems f (printArrRest (lvl + 1) xs ++
                (nlInd lvl ++ (']' :: rest)))).map
              (fun p => (Json.arr (x :: p.1), p.2)) = some (Json.arr (x :: xs), rest)
            rw [ihB xs hwxs (lvl + 1) lvl rest (by omega)]
            rfl
      | obj fields =>
        cases fields with
        | nil => rfl
        | cons kv fs =>
          obtain ⟨k, v⟩ := kv
          have hw : (((k, v) :: fs).map Prod.fst).Nodup ∧ Json.WFFields ((k, v) :: fs) := hwf
          obtain ⟨hnodup, hwff⟩ := hw
          obtain ⟨hwv, hwfs⟩ : Json.WF v ∧ Json.WFFields fs := hwff
          have e1 : Json.nodes (Json.obj ((k, v) :: fs)) =
              1 + (1 + Json.nodes v + Json.nodesFields fs) := rfl
          have hnfp := nodesFields_pos fs
          have hnvp := nodes_pos v
          have hshape : printJsonAt lvl (Json.obj ((k, v) :: fs)) ++ rest =
              '{' :: (nlInd (lvl + 1) ++ (quoteStr k ++ (':' :: (' ' ::
                (printJsonAt (lvl + 1) v ++
                  (printObjRest (lvl + 1) fs ++ (nlInd lvl ++ ('}' :: rest)))))))) := by
            show ('{' :: (nlInd (lvl + 1) ++ quoteStr k ++ ':' :: ' ' ::
              printJsonAt (lvl + 1) v ++ printObjRest (lvl + 1) fs ++ nlInd lvl ++ ['}'])) ++
                rest = _
            simp [List.append_assoc]
          rw [hshape, parseVal_obj_cons_eq]
          have hskip : skipWs (nlInd (lvl + 1) ++ (quoteStr k ++ (':' :: (' ' ::
              (printJsonAt (lvl + 1) v ++
                (printObjRest (lvl + 1) fs ++ (nlInd lvl ++ ('}' :: rest)))))))) =
              quoteStr k ++ (':' :: (' ' :: (printJsonAt (lvl + 1) v ++
                (printObjRest (lvl + 1) fs ++ (nlInd lvl ++ ('}' :: rest)))))) := by
            rw [skipWs_nlInd]
            show skipWs (('"' :: (escapeChars k.data ++ ['"'])) ++ _) = _
            rw [List.cons_append, skipWs_cons_not_ws _ _ (by decide)]
            rw [quoteStr, List.cons_append]
          rw [hskip]
          have hbT : numBoundaryB (printObjRest (lvl + 1) fs ++
              (nlInd lvl ++ ('}' :: rest))) = true := by
            cases fs with
            | nil => rfl
            | cons kv2 fs2 => rfl
          have hP : parsePair f (nlInd (lvl + 1) ++ (quoteStr k ++ (':' :: (' ' ::
              (printJsonAt (lvl + 1) v ++
                (printObjRest (lvl + 1) fs ++ (nlInd lvl ++ ('}' :: rest)))))))) =
              some ((k, v), printObjRest (lvl + 1) fs ++ (nlInd lvl ++ ('}' :: rest))) := by
            rw [parsePair_congr_ws f _ (quoteStr k ++ (':' :: (' ' ::
              (printJsonAt (lvl + 1) v ++
                (printObjRest (lvl + 1) fs ++ (nlInd lvl ++ ('}' :: rest)))))))
              (by rw [skipWs_nlInd])]
            exact ihC (k, v) hwv (lvl + 1) _ (by show Json.nodes v + 1 ≤ f; omega) hbT
          have hq : quoteStr k ++ (':' :: (' ' :: (printJsonAt (lvl + 1) v ++
              (printObjRest (lvl + 1) fs ++ (nlInd lvl ++ ('}' :: rest)))))) =
              '"' :: ((escapeChars k.data ++ ['"']) ++ (':' :: (' ' ::
                (printJsonAt (lvl + 1) v ++
                  (printObjRest (lvl + 1) fs ++ (nlInd lvl ++ ('}' :: rest))))))) := rfl
          rw [hq] at hP ⊢
          split
          · rename_i heq
            injection heq with hch _
            exact absurd hch (by decide)
          · rw [hP]
            show (parseMembers f (printObjRest (lvl + 1) fs ++
                (nlInd lvl ++ ('}' :: rest)))).map
              (fun p => (Json.obj (objOfPairs ((k, v) :: p.1)), p.2)) =
                some (Json.obj ((k, v) :: fs), rest)
            rw [ihD fs hwfs (lvl + 1) lvl rest (by omega)]
            have hobj : objOfPairs ((k, v) :: fs) = (k, v) :: fs :=
              objOfPairs_nodup _ hnodup
            simp [hobj]
    · -- array items
      intro vs hwf lvlP lvlC rest hn
      cases vs with
      | nil =>
        show parseArrItems (f + 1) ([] ++ (nlInd lvlC ++ (']' :: rest))) = some ([], rest)
        rw [List.nil_append,
          parseArrItems_congr_ws (f + 1) _ (']' :: rest) (by rw [skipWs_nlInd]),
          parseArrItems_bracket_eq]
      | cons x xs =>
        have hl : Json.WFList (x :: xs) := hwf
        obtain ⟨hwx, hwxs⟩ := hl
        have e1 : Json.nodesList (x :: xs) = 1 + Json.nodes x + Json.nodesList xs := rfl
        have hnlp := nodesList_pos xs
        have hnxp := nodes_pos x
        have hshape : printArrRest lvlP (x :: xs) ++ (nlInd lvlC ++ (']' :: rest)) =
            ',' :: (nlInd lvlP ++ (printJsonAt lvlP x ++
              (printArrRest lvlP xs ++ (nlInd lvlC ++ (']' :: rest))))) := by
          show (',' :: (nlInd lvlP ++ printJsonAt lvlP x ++ printArrRest lvlP xs)) ++
            (nlInd lvlC ++ (']' :: rest)) = _
          simp [List.append_assoc]
        have hbT : numBoundaryB (printArrRest lvlP xs ++ (nlInd lvlC ++ (']' :: rest))) =
            true := by
          cases xs <;> rfl
        have hV : parseVal f (nlInd lvlP ++ (printJsonAt lvlP x ++
            (printArrRest lvlP xs ++ (nlInd lvlC ++ (']' :: rest))))) =
            some (x, printArrRest lvlP xs ++ (nlInd lvlC ++ (']' :: rest))) := by
          rw [parseVal_congr_ws f _ (printJsonAt lvlP x ++
            (printArrRest lvlP xs ++ (nlInd lvlC ++ (']' :: rest)))) (by rw [skipWs_nlInd])]
          exact ihA x hwx lvlP _ (by omega) hbT
        rw [hshape, parseArrItems_comma_eq, hV]
        show (parseArrItems f (printArrRest lvlP xs ++ (nlInd lvlC ++ (']' :: rest)))).map
          (fun p => (x :: p.1, p.2)) = some (x :: xs, rest)
        rw [ihB xs hwxs lvlP lvlC rest (by omega)]
        rfl
    · -- one pair
      intro kv hwf lvl rest hn hb
      obtain ⟨k, v⟩ := kv
      have hn' : Json.nodes v + 1 ≤ f + 1 := hn
      have hV : parseVal f (' ' :: (printJsonAt lvl v ++ rest)) = some (v, rest) := by
        rw [parseVal_congr_ws f _ (printJsonAt lvl v ++ rest) (skipWs_cons_ws ' ' _ rfl)]
        exact ihA v hwf lvl rest (by omega) hb
      show parsePair (f + 1) ('"' :: ((escapeChars k.data ++ ['"']) ++
        (':' :: (' ' :: (printJsonAt lvl v ++ rest))))) = some ((k, v), rest)
      rw [parsePair_str_eq, List.append_assoc, List.singleton_append, parseStringBody_escape]
      show (parseVal f (' ' :: (printJsonAt lvl v ++ rest))).map
        (fun p => ((String.mk k.data, p.1), p.2)) = some ((k, v), rest)
      rw [hV]
      rfl
    · -- remaining members
      intro fs hwf lvlP lvlC rest hn
      cases fs with
      | nil =>
        show parseMembers (f + 1) ([] ++ (nlInd lvlC ++ ('}' :: rest))) = some ([], rest)
        rw [List.nil_append,
          parseMembers_congr_ws (f + 1) _ ('}' :: rest) (by rw [skipWs_nlInd]),
          parseMembers_brace_eq]
      | cons kv fs2 =>
        obtain ⟨k, v⟩ := kv
        obtain ⟨hwv, hwfs⟩ : Json.WF v ∧ Json.WFFields fs2 := hwf
        have e1 : Json.nodesFields ((k, v) :: fs2) =
            1 + Json.nodes v + Json.nodesFields fs2 := rfl
        have hnfp := nodesFields_pos fs2
        have hnvp := nodes_pos v
        have hshape : printObjRest lvlP ((k, v) :: fs2) ++ (nlInd lvlC ++ ('}' :: rest)) =
            ',' :: (nlInd lvlP ++ (quoteStr k ++ (':' :: (' ' :: (printJsonAt lvlP v ++
              (printObjRest lvlP fs2 ++ (nlInd lvlC ++ ('}' :: rest)))))))) := by
          show (',' :: (nlInd lvlP ++ quoteStr k ++ ':' :: ' ' :: printJsonAt lvlP v ++
            printObjRest lvlP fs2)) ++ (nlInd lvlC ++ ('}' :: rest)) = _
          simp [List.append_assoc]
        have hbT : numBoundaryB (printObjRest lvlP fs2 ++ (nlInd lvlC ++ ('}' :: rest))) =
            true := by
          cases fs2 with
          | nil => rfl
          | cons kv2 fs3 => rfl
        have hP : parsePair f (nlInd lvlP ++ (quoteStr k ++ (':' :: (' ' ::
            (printJsonAt lvlP v ++ (printObjRest lvlP fs2 ++ (nlInd lvlC ++ ('}' :: rest)))))))) =
            some ((k, v), printObjRest lvlP fs2 ++ (nlInd lvlC ++ ('}' :: rest))) := by
          rw [parsePair_congr_ws f _ (quoteStr k ++ (':' :: (' ' :: (printJsonAt lvlP v ++
            (printObjRest lvlP fs2 ++ (nlInd lvlC ++ ('}' :: rest)))))))
            (by rw [skipWs_nlInd])]
          exact ihC (k, v) hwv lvlP _ (by show Json.nodes v + 1 ≤ f; omega) hbT
        rw [hshape, parseMembers_comma_eq, hP]
        show (parseMembers f (printObjRest lvlP fs2 ++ (nlInd lvlC ++ ('}' :: rest)))).map
          (fun p => ((k, v) :: p.1, p.2)) = some ((k, v) :: fs2, rest)
        rw [ihD fs2 hwfs lvlP lvlC rest (by omega)]
        rfl

theorem length_nlInd (l : Nat) : (nlInd l).length = 1 + 2 * l := by
  simp [nlInd]
  omega

theorem intChars_ne_nil (i : Int) : intChars i ≠ [] := by
  cases i with
  | ofNat n => exact natChars_ne_nil n
  | negSucc m => simp [intChars]

theorem nodes_le_print_len (fuel : Nat) :
    (∀ v : Json, Json.nodes v ≤ fuel → Json.WF v → ∀ lvl,
      Json.nodes v ≤ (printJsonAt lvl v).length) ∧
    (∀ vs : List Json, Json.nodesList vs ≤ fuel → Json.WFList vs → ∀ lvl,
      Json.nodesList vs ≤ (printArrRest lvl vs).length + 1) ∧
    (∀ fs : List (String × Json), Json.nodesFields fs ≤ fuel → Json.WFFields fs → ∀ lvl,
      Json.nodesFields fs ≤ (printObjRest lvl fs).length + 1) := by
  induction fuel with
  | zero =>
    refine ⟨?_, ?_, ?_⟩
    · intro v hn _ _
      exfalso
      have := nodes_pos v
      omega
    · intro vs hn _ _
      exfalso
      have := nodesList_pos vs
      omega
    · intro fs hn _ _
      exfalso
      have := nodesFields_pos fs
      omega
  | succ f ih =>
    obtain ⟨ihA, ihB, ihC⟩ := ih
    refine ⟨?_, ?_, ?_⟩
    · intro v hn hwf lvl
      cases v with
      | null => exact (by decide : (1 : Nat) ≤ ("null".data).length)
      | bool b =>
        cases b with
        | false => exact (by decide : (1 : Nat) ≤ ("false".data).length)
        | true => exact (by decide : (1 : Nat) ≤ ("true".data).length)
      | num i =>
        have h1 : Json.nodes (Json.num i) = 1 := rfl
        have h2 : printJsonAt lvl (Json.num i) = intChars i := rfl
        rw [h1, h2]
        have := intChars_ne_nil i
        have : 0 < (intChars i).length := List.length_pos.mpr this
        omega
      | numRaw tok => exact absurd hwf (by simp [Json.WF])
      | str s =>
        have h1 : Json.nodes (Json.str s) = 1 := rfl
        have h2 : printJsonAt lvl (Json.str s) = quoteStr s := rfl
        rw [h1, h2, quoteStr]
        simp
      | arr items =>
        cases items with
        | nil => exact (by decide : (2 : Nat) ≤ ("[]".data).length)
        | cons x xs =>
          have hl : Json.WFList (x :: xs) := hwf
          obtain ⟨hwx, hwxs⟩ := hl
          have e1 : Json.nodes (Json.arr (x :: xs)) =
              1 + (1 + Json.nodes x + Json.nodesList xs) := rfl
          have e2 : (printJsonAt lvl (Json.arr (x :: xs))).length =
              1 + ((nlInd (lvl + 1)).length + ((printJsonAt (lvl + 1) x).length +
                ((printArrRest (lvl + 1) xs).length + ((nlInd lvl).length + 1)))) := by
            show ('[' :: (nlInd (lvl + 1) ++ printJsonAt (lvl + 1) x ++
              printArrRest (lvl + 1) xs ++ nlInd lvl ++ [']'])).length = _
            simp [List.length_append]
            ring
          have hnlp := nodesList_pos xs
          have hnxp := nodes_pos x
          have ha := ihA x (by omega) hwx (lvl + 1)
          have hb := ihB xs (by omega) hwxs (lvl + 1)
          rw [e1, e2]
          have hl1 := length_nlInd (lvl + 1)
          have hl2 := length_nlInd lvl
          omega
      | obj fields =>
        cases fields with
        | nil => exact (by decide : (2 : Nat) ≤ (['{', '}'] : List Char).length)
        | cons kv fs =>
          obtain ⟨k, v⟩ := kv
          have hw : (((k, v) :: fs).map Prod.fst).Nodup ∧ Json.WFFields ((k, v) :: fs) := hwf
          obtain ⟨hwv, hwfs⟩ : Json.WF v ∧ Json.WFFields fs := hw.2
          have e1 : Json.nodes (Json.obj ((k, v) :: fs)) =
              1 + (1 + Json.nodes v + Json.nodesFields fs) := rfl
          have e2 : (printJsonAt lvl (Json.obj ((k, v) :: fs))).length =
              1 + ((nlInd (lvl + 1)).length + ((quoteStr k).length + (2 +
                ((printJsonAt (lvl + 1) v).length +
                  ((printObjRest (lvl + 1) fs).length + ((nlInd lvl).length + 1)))))) := by
            show ('{' :: (nlInd (lvl + 1) ++ quoteStr k ++ ':' :: ' ' ::
              printJsonAt (lvl + 1) v ++ printObjRest (lvl + 1) fs ++ nlInd lvl ++
                ['}'])).length = _
            simp [List.length_append]
            ring
          have hnfp := nodesFields_pos fs
          have hnvp := nodes_pos v
          have ha := ihA v (by omega) hwv (lvl + 1)
          have hc := ihC fs (by omega) hwfs (lvl + 1)
          rw [e1, e2]
          have hl1 := length_nlInd (lvl + 1)
          have hl2 := length_nlInd lvl
          omega
    · intro vs hn hwf lvl
      cases vs with
      | nil => exact (by decide : (1 : Nat) ≤ 0 + 1)
      | cons x xs =>
        have hl : Json.WFList (x :: xs) := hwf
        obtain ⟨hwx, hwxs⟩ := hl
        have e1 : Json.nodesList (x :: xs) = 1 + Json.nodes x + Json.nodesList xs := rfl
        have e2 : (printArrRest lvl (x :: xs)).length =
            1 + ((nlInd lvl).length + ((printJsonAt lvl x).length +
              (printArrRest lvl xs).length)) := by
          show (',' :: (nlInd lvl ++ printJsonAt lvl x ++ printArrRest lvl xs)).length = _
          simp [List.length_append]
          ring
        have hnlp := nodesList_pos xs
        have hnxp := nodes_pos x
        have ha := ihA x (by omega) hwx lvl
        have hb := ihB xs (by omega) hwxs lvl
        rw [e1, e2]
        have hl1 := length_nlInd lvl
        omega
    · intro fs hn hwf lvl
      cases fs with
      | nil => exact (by decide : (1 : Nat) ≤ 0 + 1)
      | cons kv fs2 =>
        obtain ⟨k, v⟩ := kv
        obtain ⟨hwv, hwfs⟩ : Json.WF v ∧ Json.WFFields fs2 := hwf
        have e1 : Json.nodesFields ((k, v) :: fs2) =
            1 + Json.nodes v + Json.nodesFields fs2 := rfl
        have e2 : (printObjRest lvl ((k, v) :: fs2)).length =
            1 + ((nlInd lvl).length + ((quoteStr k).length + (2 +
              ((printJsonAt lvl v).length + (printObjRest lvl fs2).length)))) := by
          show (',' :: (nlInd lvl ++ quoteStr k ++ ':' :: ' ' ::
            printJsonAt lvl v ++ printObjRest lvl fs2)).length = _
          simp [List.length_append]
          ring
        have hnfp := nodesFields_pos fs2
        have hnvp := nodes_pos v
        have ha := ihA v (by omega) hwv lvl
        have hc := ihC fs2 (by omega) hwfs lvl
        rw [e1, e2]
        have hl1 := length_nlInd lvl
        omega

/-- The whole-document round trip on well-formed values. -/
theorem jsonLoads_dumps (v : Json) (h : Json.WF v) : jsonLoads (jsonDumps v) = some v := by
  have hlen : Json.nodes v ≤ (printJsonAt 0 v).length :=
    (nodes_le_print_len (Json.nodes v)).1 v le_rfl h 0
  have h1 : parseVal ((printJsonAt 0 v).length + 1) (printJsonAt 0 v ++ []) = some (v, []) :=
    (parse_print ((printJsonAt 0 v).length + 1)).1 v h 0 [] (by omega) rfl
  rw [List.append_nil] at h1
  unfold jsonLoads jsonDumps
  rw [show (String.mk (printJsonAt 0 v)).data = printJsonAt 0 v from rfl, h1]
  rfl

/-! ## Claim theorems: revision cache persistence (C7, C8, C10) -/

/-- C7: loading the revision cache from a missing file, or from a file whose
contents fail to parse as JSON, returns the empty mapping without raising; the
malformed case additionally emits the rebuild warning. -/
theorem load_revision_cache_missing_or_malformed (contents : Option String) :
    (contents = none → load_revision_cache contents = ([], false)) ∧
    (∀ s, contents = some s → jsonLoads s = none →
      load_revision_cache contents = ([], true)) := by
  constructor
  · intro h
    subst h
    rfl
  · intro s h hp
    subst h
    show (match jsonLoads s with
      | some (Json.obj fields) => (fields, false)
      | some _ => (([] : List (String × Json)), false)
      | none => (([] : List (String × Json)), true)) = ([], true)
    rw [hp]

/-- C7 witness: the missing-file and malformed-file branches at concrete
inputs. -/
theorem load_revision_cache_missing_or_malformed_witness :
    load_revision_cache none = ([], false) ∧
      load_revision_cache (some "not json") = ([], true) :=
  ⟨(load_revision_cache_missing_or_malformed none).1 rfl,
   (load_revision_cache_missing_or_malformed (some "not json")).2 "not json" rfl (by rfl)⟩

/-- C8: saving any well-formed revision-cache mapping and loading it back
yields the same mapping (and no warning). -/
theorem save_load_roundtrip (cache : List (String × Json))
    (h : Json.WF (Json.obj cache)) :
    load_revision_cache (some (dump_revision_cache cache)) = (cache, false) := by
  show (match jsonLoads (dump_revision_cache cache) with
    | some (Json.obj fields) => (fields, false)
    | some _ => (([] : List (String × Json)), false)
    | none => (([] : List (String × Json)), true)) = (cache, false)
  rw [show jsonLoads (dump_revision_cache cache) = some (Json.obj cache) from
    jsonLoads_dumps _ h]

/-- C8 witness: the round trip at a concrete one-page cache. -/
theorem save_load_roundtrip_witness :
    Json.WF (Json.obj exampleCache) ∧
      load_revision_cache (some (dump_revision_cache exampleCache)) =
        (exampleCache, false) := by
  have hwf : Json.WF (Json.obj exampleCache) := by
    simp [exampleCache, Json.WF, Json.WFFields, Json.WFList]
  exact ⟨hwf, save_load_roundtrip exampleCache hwf⟩

/-- C10: a file that parses as valid JSON whose top-level value is not an
object loads as the empty mapping, without raising and without the
malformed-cache warning. -/
theorem load_revision_cache_non_object (s : String) (j : Json)
    (hp : jsonLoads s = some j) (hno : j.isObj = false) :
    load_revision_cache (some s) = ([], false) := by
  show (match jsonLoads s with
    | some (Json.obj fields) => (fields, false)
    | some _ => (([] : List (String × Json)), false)
    | none => (([] : List (String × Json)), true)) = ([], false)
  rw [hp]
  cases j <;> first | rfl | simp [Json.isObj] at hno

/-- C10 witness: a JSON array — and separately a JSON string — as the file's
top-level value. -/
theorem load_revision_cache_non_object_witness :
    load_revision_cache (some "[]") = ([], false) ∧
      load_revision_cache (some "\"x\"") = ([], false) :=
  ⟨load_revision_cache_non_object "[]" (Json.arr []) (by rfl) rfl,
   load_revision_cache_non_object "\"x\"" (Json.str "x") (by rfl) rfl⟩

/-! ## Claim theorems: stats fetch engine (C1) -/

theorem fetchStep_eq (env : String → ScryResponse) (query : String)
    (stats : List (String × Nat)) (color : String) :
    fetchStep env query stats color =
      match categoryOutcome env query color with
      | some n => assocSet color n stats
      | none => stats := by
  simp only [fetchStep, categoryOutcome]
  split_ifs <;> rfl

theorem lookup_none_of_not_mem_keys {α : Type} (l : List (String × α)) (k : String)
    (h : k ∉ l.map Prod.fst) : l.lookup k = none := by
  induction l with
  | nil => rfl
  | cons kv t ih =>
    obtain ⟨k2, v2⟩ := kv
    simp only [List.map_cons, List.mem_cons] at h
    push_neg at h
    have hbeq : (k == k2) = false := by simpa using h.1
    simp only [List.lookup, hbeq]
    exact ih h.2

theorem fetch_go (env : String → ScryResponse) (query : String) :
    ∀ (colors : List String) (acc : List (String × Nat)),
      (∀ c ∈ colors, c ∉ acc.map Prod.fst) → colors.Nodup →
      colors.foldl (fetchStep env query) acc =
        acc ++ colors.filterMap
          (fun c => (categoryOutcome env query c).map (fun n => (c, n))) := by
  intro colors
  induction colors with
  | nil =>
    intro acc _ _
    simp
  | cons c cs ih =>
    intro acc hdisj hnd
    simp only [List.foldl_cons, List.filterMap_cons]
    rw [fetchStep_eq]
    cases hco : categoryOutcome env query c with
    | none =>
      simp only [Option.map_none]
      exact ih acc (fun d hd => hdisj d (by simp [hd])) (List.nodup_cons.mp hnd).2
    | some n =>
      simp only [Option.map_some]
      rw [assocSet_not_mem _ _ _ (hdisj c (by simp))]
      rw [ih (acc ++ [(c, n)]) ?_ (List.nodup_cons.mp hnd).2]
      · simp
      · intro d hd
        simp only [List.map_append, List.mem_append, List.map_cons]
        rintro (hda | hdc)
        · exact hdisj d (by simp [hd]) hda
        · have : d = c := by simpa using hdc
          subst this
          exact (List.nodup_cons.mp hnd).1 hd

theorem fetch_eq_filterMap (env : String → ScryResponse) (query : String) :
    fetch_scryfall_stats env query =
      COLOR_ORDER.filterMap
        (fun c => (categoryOutcome env query c).map (fun n => (c, n))) := by
  unfold fetch_scryfall_stats
  rw [fetch_go env query COLOR_ORDER [] (by simp) (by decide)]
  simp

theorem lookup_filterMap_colors (f : String → Option Nat) :
    ∀ (colors : List String), colors.Nodup → ∀ color ∈ colors,
      (colors.filterMap (fun c => (f c).map (fun n => (c, n)))).lookup color = f color := by
  intro colors
  induction colors with
  | nil =>
    intro _ color hc
    simp at hc
  | cons c cs ih =>
    intro hnd color hc
    rcases List.mem_cons.mp hc with rfl | hmem
    · cases hf : f color with
      | some n =>
        have hred : (color :: cs).filterMap (fun c => (f c).map (fun n => (c, n))) =
            (color, n) :: cs.filterMap (fun c => (f c).map (fun n => (c, n))) := by
          simp [List.filterMap_cons, hf]
        rw [hred]
        simp [List.lookup]
      | none =>
        have hred : (color :: cs).filterMap (fun c => (f c).map (fun n => (c, n))) =
            cs.filterMap (fun c => (f c).map (fun n => (c, n))) := by
          simp [List.filterMap_cons, hf]
        rw [hred]
        have hkeys : List.lookup color
            (cs.filterMap (fun c => (f c).map (fun n => (c, n)))) = none := by
          apply lookup_none_of_not_mem_keys
          intro hk
          simp only [List.mem_map] at hk
          obtain ⟨pair, hpair, hfst⟩ := hk
          rw [List.mem_filterMap] at hpair
          obtain ⟨d, hd, hdp⟩ := hpair
          have hdc : d = pair.1 := by
            cases he : f d with
            | none => rw [he] at hdp; simp at hdp
            | some m =>
              rw [he] at hdp
              simp only [Option.map, Option.some.injEq] at hdp
              rw [← hdp]
          rw [hfst] at hdc
          subst hdc
          exact (List.nodup_cons.mp hnd).1 hd
        rw [hkeys]
    · cases hf : f c with
      | some n =>
        have hred : (c :: cs).filterMap (fun d => (f d).map (fun n => (d, n))) =
            (c, n) :: cs.filterMap (fun d => (f d).map (fun n => (d, n))) := by
          simp [List.filterMap_cons, hf]
        rw [hred]
        have hne : (color == c) = false := by
          have hcc : color ≠ c := by
            intro h
            subst h
            exact (List.nodup_cons.mp hnd).1 hmem
          simpa using hcc
        simp only [List.lookup, hne]
        exact ih (List.nodup_cons.mp hnd).2 color hmem
      | none =>
        have hred : (c :: cs).filterMap (fun d => (f d).map (fun n => (d, n))) =
            cs.filterMap (fun d => (f d).map (fun n => (d, n))) := by
          simp [List.filterMap_cons, hf]
        rw [hred]
        exact ih (List.nodup_cons.mp hnd).2 color hmem

/-- C1 counterexample: when every request answers 400 with a display-options
body — so the initial call enters the fallback branch and the fallback itself
is neither ok nor 404 — no category is ever recorded: the returned mapping is
empty and in particular has no "c" key, where the claim demands a zero
count. -/
theorem fetch_scryfall_stats_fallback_drops_category :
    fetch_scryfall_stats (fun _ => ⟨400, none, true⟩) "t:dragon" = [] ∧
      (fetch_scryfall_stats (fun _ => ⟨400, none, true⟩) "t:dragon").lookup "c" = none := by
  constructor <;> rfl

/-- C1 amended: for every upstream environment and query, the mapping's value
at each category code is exactly the branch outcome for that category — ok →
`total_cards` (default 0), 404 → 0, other failures → 0 — except that after a
400-with-"Display options" initial response whose bracket-free fallback is
neither ok nor 404, the category key is absent rather than 0. -/
theorem fetch_scryfall_stats_category (env : String → ScryResponse) (query : String) :
    ∀ color ∈ COLOR_ORDER,
      (fetch_scryfall_stats env query).lookup color = categoryOutcome env query color := by
  intro color hc
  rw [fetch_eq_filterMap]
  exact lookup_filterMap_colors (categoryOutcome env query) COLOR_ORDER (by decide) color hc

/-- C1 amended witness: the "c" category under an upstream that answers ok
with 7 cards. -/
theorem fetch_scryfall_stats_category_witness :
    "c" ∈ COLOR_ORDER ∧
      (fetch_scryfall_stats (fun _ => ⟨200, some 7, false⟩) "t:x").lookup "c" =
        categoryOutcome (fun _ => ⟨200, some 7, false⟩) "t:x" "c" :=
  ⟨by decide, fetch_scryfall_stats_category _ _ "c" (by decide)⟩

/-! ## Claim theorems: query extractor (C5, C9) -/

theorem linkCandidate_eq_some (url s : String) :
    linkCandidate url = some s ↔
      (containsSub SCRYFALL_SEARCH_SIG url.data = true ∧
       (∃ vs, (parse_qs (urlQuery url)).lookup "q" = some (s :: vs)) ∧
       (parse_qs (urlQuery url)).lookup "utm_source" = none ∧
       s.data.contains ':' = true) := by
  unfold linkCandidate
  by_cases hc : containsSub SCRYFALL_SEARCH_SIG url.data = true
  · rw [if_pos hc]
    simp only [hc, true_and]
    cases hq : (parse_qs (urlQuery url)).lookup "q" with
    | none => simp [hq]
    | some vals =>
      cases vals with
      | nil => simp [hq]
      | cons v vs =>
        cases hu : (parse_qs (urlQuery url)).lookup "utm_source" with
        | some u => simp [hq, hu]
        | none =>
          by_cases hcol : v.data.contains ':' = true
          · simp only [hq, hu, hcol, if_true]
            constructor
            · intro h
              injection h with h
              subst h
              exact ⟨⟨vs, rfl⟩, trivial, hcol⟩
            · rintro ⟨⟨vs2, hvs⟩, _, hscol⟩
              injection hvs with hvs
              injection hvs with h1 _
              rw [h1]
          · simp only [hq, hu, if_neg hcol]
            constructor
            · intro h
              exact absurd h (by simp)
            · rintro ⟨⟨vs2, hvs⟩, _, hscol⟩
              injection hvs with hvs
              injection hvs with h1 _
              subst h1
              exact absurd hscol hcol
  · rw [if_neg hc]
    constructor
    · intro h
      exact absurd h (by simp)
    · rintro ⟨hc2, _⟩
      exact absurd hc2 hc

/-- C5: the extractor returns the sorted, duplicate-free list of exactly
those query values `s` for which some link's URL contains the search-service
signature, whose parsed query string carries `q` with `s` as its first value
and carries no `utm_source`, and where `s` contains a colon. -/
theorem process_page_characterization (links : List String) :
    (process_page links).Sorted (· ≤ ·) ∧ (process_page links).Nodup ∧
      ∀ s : String, s ∈ process_page links ↔
        ∃ url ∈ links,
          containsSub SCRYFALL_SEARCH_SIG url.data = true ∧
          (∃ vs, (parse_qs (urlQuery url)).lookup "q" = some (s :: vs)) ∧
          (parse_qs (urlQuery url)).lookup "utm_source" = none ∧
          s.data.contains ':' = true := by
  refine ⟨Finset.sort_sorted _ _, Finset.sort_nodup _ _, ?_⟩
  intro s
  unfold process_page
  rw [Finset.mem_sort, List.mem_toFinset, List.mem_filterMap]
  constructor
  · rintro ⟨url, hurl, hcand⟩
    exact ⟨url, hurl, (linkCandidate_eq_some url s).mp hcand⟩
  · rintro ⟨url, hurl, hconds⟩
    exact ⟨url, hurl, (linkCandidate_eq_some url s).mpr hconds⟩

/-- C9: a matching link contributes only the first value of its `q`
parameter: the candidate equals the head of the parsed `q` list, and no later
`q` value of the same link can be the link's candidate. -/
theorem linkCandidate_first_q_only (url s : String)
    (h : linkCandidate url = some s) :
    ∃ vs, (parse_qs (urlQuery url)).lookup "q" = some (s :: vs) ∧
      ∀ v ∈ vs, v ≠ s → linkCandidate url ≠ some v := by
  obtain ⟨vs, hvs⟩ := ((linkCandidate_eq_some url s).mp h).2.1
  refine ⟨vs, hvs, ?_⟩
  intro v _ hvne hcand
  rw [h] at hcand
  injection hcand with h2
  exact hvne h2.symm

/-- C9 witness: a link whose query string carries `q` twice. -/
theorem linkCandidate_first_q_only_witness :
    ∃ vs, (parse_qs (urlQuery "scryfall.com/search?q=a%3Ab&q=c%3Ad")).lookup "q" =
        some ("a:b" :: vs) ∧
      ∀ v ∈ vs, v ≠ "a:b" →
        linkCandidate "scryfall.com/search?q=a%3Ab&q=c%3Ad" ≠ some v :=
  linkCandidate_first_q_only "scryfall.com/search?q=a%3Ab&q=c%3Ad" "a:b" (by decide)

/-! ## Claim theorems: incremental crawl controller (C2, C3, C4) -/

theorem lookup_assocSet_self {α : Type} (k : String) (v : α) (l : List (String × α)) :
    (assocSet k v l).lookup k = some v := by
  induction l with
  | nil => simp [assocSet, List.lookup]
  | cons kv t ih =>
    obtain ⟨k2, v2⟩ := kv
    by_cases h : k2 = k
    · subst h
      simp [assocSet, List.lookup]
    · rw [assocSet, if_neg h]
      have hbeq : (k == k2) = false := by
        simpa using fun hh : k = k2 => h hh.symm
      simp [List.lookup, hbeq, ih]

/-- C3: the revision-cache entry is written if and only if the page was
actually processed and its extraction succeeded.  A `TimeoutError` leaves the
whole cache (in particular the page's prior entry) untouched, registers no
queries, logs the error, and the fold simply continues with the next page; a
page skipped by the seen-set or by a cache hit also leaves the cache
untouched; a processed page with successful extraction gets exactly the fresh
record under its title. -/
theorem crawl_cache_update_iff_success (st : CrawlState) (idx : Nat) (page : PageInput) :
    (page.outcome = FetchOutcome.timeout → (crawlStep st idx page).cache = st.cache) ∧
    (page.outcome = FetchOutcome.timeout → page.title ∉ st.seen →
      cacheHitQueries st.cache page = none →
      (crawlStep st idx page).queries = st.queries ∧
      (crawlStep st idx page).errors = st.errors ++ [page.title]) ∧
    (∀ qs, page.outcome = FetchOutcome.success qs →
      page.title ∉ st.seen → cacheHitQueries st.cache page = none →
      ((crawlStep st idx page).cache).lookup page.title =
        some (current_revision_record page page.latest_rev_id qs)) ∧
    ((page.title ∈ st.seen ∨ cacheHitQueries st.cache page ≠ none) →
      (crawlStep st idx page).cache = st.cache) := by
  by_cases hseen : page.title ∈ st.seen
  · have hstep : crawlStep st idx page = { st with log := st.log ++ [(idx, false)] } := by
      unfold crawlStep
      rw [if_pos hseen]
    refine ⟨?_, ?_, ?_, ?_⟩
    · intro _
      rw [hstep]
    · intro _ hns
      exact absurd hseen hns
    · intro qs _ hns
      exact absurd hseen hns
    · intro _
      rw [hstep]
  · cases hhit : cacheHitQueries st.cache page with
    | some qs0 =>
      have hstep : crawlStep st idx page =
          { st with
            seen := st.seen ++ [page.title]
            queries := register_page_queries page.title qs0 st.queries
            log := st.log ++ [(idx, false)] } := by
        unfold crawlStep
        rw [if_neg hseen, hhit]
      refine ⟨?_, ?_, ?_, ?_⟩
      · intro _
        rw [hstep]
      · intro _ _ hnone
        exact absurd hnone (by simp)
      · intro qs _ _ hnone
        exact absurd hnone (by simp)
      · intro _
        rw [hstep]
    | none =>
      cases hout : page.outcome with
      | timeout =>
        have hstep : crawlStep st idx page =
            { st with
              seen := st.seen ++ [page.title]
              errors := st.errors ++ [page.title]
              log := st.log ++ [(idx, false)] } := by
          unfold crawlStep
          rw [if_neg hseen, hhit, hout]
        refine ⟨?_, ?_, ?_, ?_⟩
        · intro _
          rw [hstep]
        · intro _ _ _
          rw [hstep]
          exact ⟨rfl, rfl⟩
        · intro qs hqs
          exact absurd hqs (by simp)
        · rintro (hs | hn)
          · exact absurd hs hseen
          · exact absurd rfl hn
      | success pqs =>
        have hstep : (crawlStep st idx page).cache =
            assocSet page.title
              (current_revision_record page page.latest_rev_id pqs) st.cache := by
          unfold crawlStep
          rw [if_neg hseen, hhit, hout]
        refine ⟨?_, ?_, ?_, ?_⟩
        · intro ht
          exact absurd ht (by simp)
        · intro ht
          exact absurd ht (by simp)
        · intro qs hqs _ _
          injection hqs with hq
          subst hq
          rw [hstep]
          exact lookup_assocSet_self _ _ _
        · rintro (hs | hn)
          · exact absurd hs hseen
          · exact absurd rfl hn

/-- C3 witness: a page whose fetch times out, starting from the empty state:
the cache and queries are unchanged and the error is logged. -/
theorem crawl_cache_update_iff_success_witness :
    (crawlStep (initialCrawlState []) 0
        { title := "P", latest_rev_id := 5, timestamp := none,
          outcome := FetchOutcome.timeout }).cache = (initialCrawlState []).cache ∧
    (crawlStep (initialCrawlState []) 0
        { title := "P", latest_rev_id := 5, timestamp := none,
          outcome := FetchOutcome.timeout }).queries = (initialCrawlState []).queries ∧
    (crawlStep (initialCrawlState []) 0
        { title := "P", latest_rev_id := 5, timestamp := none,
          outcome := FetchOutcome.timeout }).errors =
      (initialCrawlState []).errors ++ ["P"] := by
  have h := crawl_cache_update_iff_success (initialCrawlState []) 0
    { title := "P", latest_rev_id := 5, timestamp := none,
      outcome := FetchOutcome.timeout }
  have h2 := h.2.1 rfl (by simp [initialCrawlState]) rfl
  exact ⟨h.1 rfl, h2.1, h2.2⟩

/-- C4: a cache hit — a truthy entry under the page's title whose `rev_id`
equals the current revision id and which carries a non-`None` `queries`
field — makes the controller register exactly the cached queries and leave
the cache unchanged, consulting the fetch outcome not at all (so no content
fetch or extraction happens); in every other case (entry missing or falsy,
revision mismatch, or `queries` absent) the page is fully processed: on
successful extraction the extracted queries are registered and a fresh record
is written over the entry. -/
theorem crawl_cache_hit_skips_extraction (st : CrawlState) (idx : Nat)
    (page : PageInput) (hseen : page.title ∉ st.seen) :
    (∀ qs, cacheHitQueries st.cache page = some qs →
      (∀ o, crawlStep st idx { page with outcome := o } = crawlStep st idx page) ∧
      (crawlStep st idx page).queries =
        register_page_queries page.title qs st.queries ∧
      (crawlStep st idx page).cache = st.cache) ∧
    (cacheHitQueries st.cache page = none →
      ∀ qs, page.outcome = FetchOutcome.success qs →
        (crawlStep st idx page).queries =
          register_page_queries page.title qs st.queries ∧
        (crawlStep st idx page).cache =
          assocSet page.title
            (current_revision_record page page.latest_rev_id qs) st.cache) := by
  constructor
  · intro qs hhit
    have hstep : crawlStep st idx page =
        { st with
          seen := st.seen ++ [page.title]
          queries := register_page_queries page.title qs st.queries
          log := st.log ++ [(idx, false)] } := by
      unfold crawlStep
      rw [if_neg hseen, hhit]
    refine ⟨?_, ?_, ?_⟩
    · intro o
      have hstep2 : crawlStep st idx { page with outcome := o } =
          { st with
            seen := st.seen ++ [page.title]
            queries := register_page_queries page.title qs st.queries
            log := st.log ++ [(idx, false)] } := by
        unfold crawlStep
        rw [if_neg hseen]
        have hhit2 : cacheHitQueries st.cache { page with outcome := o } = some qs := hhit
        rw [hhit2]
      rw [hstep, hstep2]
    · rw [hstep]
    · rw [hstep]
  · intro hhit qs hout
    have hstep : crawlStep st idx page =
        { seen := st.seen ++ [page.title]
          queries := register_page_queries page.title qs st.queries
          cache := assocSet page.title
            (current_revision_record page page.latest_rev_id qs) st.cache
          errors := st.errors
          flushes :=
            if (idx + 1) % 100 == 0 then
              st.flushes ++ [(register_page_queries page.title qs st.queries,
                assocSet page.title
                  (current_revision_record page page.latest_rev_id qs) st.cache)]
            else st.flushes
          log := st.log ++ [(idx, true)] } := by
      unfold crawlStep
      rw [if_neg hseen, hhit, hout]
    rw [hstep]
    exact ⟨rfl, rfl⟩

/-- C4 witness: a page at revision 42 with cached entry `rev_id = 42`,
`queries = ["a:b"]` registers the cached query with the cache unchanged. -/
theorem crawl_cache_hit_skips_extraction_witness :
    (crawlStep (initialCrawlState
        [("P", [("rev_id", Json.num 42), ("queries", Json.arr [Json.str "a:b"])])]) 0
        { title := "P", latest_rev_id := 42, timestamp := none,
          outcome := FetchOutcome.timeout }).queries =
      register_page_queries "P" ["a:b"] [] ∧
    (crawlStep (initialCrawlState
        [("P", [("rev_id", Json.num 42), ("queries", Json.arr [Json.str "a:b"])])]) 0
        { title := "P", latest_rev_id := 42, timestamp := none,
          outcome := FetchOutcome.timeout }).cache =
      (initialCrawlState
        [("P", [("rev_id", Json.num 42), ("queries", Json.arr [Json.str "a:b"])])]).cache := by
  have h := (crawl_cache_hit_skips_extraction (initialCrawlState
      [("P", [("rev_id", Json.num 42), ("queries", Json.arr [Json.str "a:b"])])]) 0
      { title := "P", latest_rev_id := 42, timestamp := none,
        outcome := FetchOutcome.timeout }
      (by simp [initialCrawlState])).1 ["a:b"] (by rfl)
  exact ⟨h.2.1, h.2.2⟩

/-- C2 counterexample: a run over two templates whose first yields one
successfully processed page performs exactly one flush — the single final
dump after all templates — not one per template as the claim states (which
would require at least two distinct flush events here). -/
theorem crawl_no_per_template_flush :
    ((runCrawl
      [[{ title := "A", latest_rev_id := 1, timestamp := none,
          outcome := FetchOutcome.success ["a:b"] }], []] []).flushes).length = 1 := by
  rfl

theorem crawlStep_flush_inv (st : CrawlState) (idx : Nat) (page : PageInput)
    (h : st.flushes.length =
      (st.log.filter (fun e => e.2 && (e.1 + 1) % 100 == 0)).length) :
    (crawlStep st idx page).flushes.length =
      (((crawlStep st idx page).log).filter
        (fun e => e.2 && (e.1 + 1) % 100 == 0)).length := by
  by_cases hseen : page.title ∈ st.seen
  · have hstep : crawlStep st idx page = { st with log := st.log ++ [(idx, false)] } := by
      unfold crawlStep
      rw [if_pos hseen]
    rw [hstep]
    simp [List.filter_append, h]
  · cases hhit : cacheHitQueries st.cache page with
    | some qs0 =>
      have hstep : crawlStep st idx page =
          { st with
            seen := st.seen ++ [page.title]
            queries := register_page_queries page.title qs0 st.queries
            log := st.log ++ [(idx, false)] } := by
        unfold crawlStep
        rw [if_neg hseen, hhit]
      rw [hstep]
      simp [List.filter_append, h]
    | none =>
      cases hout : page.outcome with
      | timeout =>
        have hstep : crawlStep st idx page =
            { st with
              seen := st.seen ++ [page.title]
              errors := st.errors ++ [page.title]
              log := st.log ++ [(idx, false)] } := by
          unfold crawlStep
          rw [if_neg hseen, hhit, hout]
        rw [hstep]
        simp [List.filter_append, h]
      | success pqs =>
        have hstep : crawlStep st idx page =
            { seen := st.seen ++ [page.title]
              queries := register_page_queries page.title pqs st.queries
              cache := assocSet page.title
                (current_revision_record page page.latest_rev_id pqs) st.cache
              errors := st.errors
              flushes :=
                if (idx + 1) % 100 == 0 then
                  st.flushes ++ [(register_page_queries page.title pqs st.queries,
                    assocSet page.title
                      (current_revision_record page page.latest_rev_id pqs) st.cache)]
                else st.flushes
              log := st.log ++ [(idx, true)] } := by
          unfold crawlStep
          rw [if_neg hseen, hhit, hout]
        rw [hstep]
        by_cases hmod : (idx + 1) % 100 == 0
        · simp [List.filter_append, hmod, h]
        · simp only [Bool.not_eq_true] at hmod
          simp [List.filter_append, hmod, h]

theorem foldl_pages_flush_inv (ips : List (Nat × PageInput)) :
    ∀ st : CrawlState,
      st.flushes.length =
        (st.log.filter (fun e => e.2 && (e.1 + 1) % 100 == 0)).length →
      (ips.foldl (fun s ip => crawlStep s ip.1 ip.2) st).flushes.length =
        (((ips.foldl (fun s ip => crawlStep s ip.1 ip.2) st).log).filter
          (fun e => e.2 && (e.1 + 1) % 100 == 0)).length := by
  induction ips with
  | nil => intro st h; exact h
  | cons ip t ih =>
    intro st h
    simp only [List.foldl_cons]
    exact ih _ (crawlStep_flush_inv st ip.1 ip.2 h)

theorem foldl_templates_flush_inv (templates : List (List PageInput)) :
    ∀ st : CrawlState,
      st.flushes.length =
        (st.log.filter (fun e => e.2 && (e.1 + 1) % 100 == 0)).length →
      (templates.foldl runTemplate st).flushes.length =
        (((templates.foldl runTemplate st).log).filter
          (fun e => e.2 && (e.1 + 1) % 100 == 0)).length := by
  induction templates with
  | nil => intro st h; exact h
  | cons pages t ih =>
    intro st h
    simp only [List.foldl_cons]
    exact ih _ (foldl_pages_flush_inv pages.enum st h)

/-- C2 amended: a checkpoint flush of both stores happens exactly after each
fully processed page whose 1-based index in its template's enumeration — an
index that also counts pages skipped by the seen-set or the cache — is a
multiple of 100, and one unconditional flush of both stores happens once
after all templates (there is no per-template flush), so the last durable
snapshot always equals the final registry and cache. -/
theorem crawl_flush_schedule (templates : List (List PageInput))
    (cache0 : List (String × List (String × Json))) :
    (runCrawl templates cache0).flushes.length =
      1 + (((runCrawl templates cache0).log).filter
        (fun e => e.2 && (e.1 + 1) % 100 == 0)).length ∧
    (runCrawl templates cache0).flushes.getLast? =
      some ((runCrawl templates cache0).queries, (runCrawl templates cache0).cache) := by
  have hinv := foldl_templates_flush_inv templates (initialCrawlState cache0) rfl
  unfold runCrawl
  constructor
  · simp only [List.length_append, List.length_singleton, hinv]
    omega
  · simp [List.getLast?_concat]

/-! ## Claim theorem: Lua module renderer (C6) -/

/-- C6: evaluating the renderer at the failing input — a StatsTable whose
only query is `o:'x'` (a realistic Scryfall query: `'` quotes multi-word
text) — shows the query interpolated verbatim into a single-quoted Lua
string literal with no escaping.  The emitted entry line is `    ['o:'x''] =
{`: the query's first `'` terminates the Lua literal after `o:`, leaving `x`
and an empty string juxtaposed inside the bracketed key expression, which no
Lua parser accepts, so the module is not syntactically valid and cannot be
imported. -/
theorem lua_from_mapping_quote_injection :
    lua_from_mapping [("o:" ++ squote ++ "x" ++ squote, [])] =
      "-- Auto-generated data. Edit carefully.\nreturn \x7b\n    [" ++ squote ++
        "o:" ++ squote ++ "x" ++ squote ++ squote ++
        "] = \x7b\n        c = 0, w = 0, u = 0, b = 0, r = 0, g = 0, m = 0\n    \x7d,\n\x7d\n" := by
  rfl
